import Mathlib

/- Verification development for the islpy-barvinok PEP 517 build backend
   (build_backend.py).  The file shallowly embeds the backend's decision
   logic — subprocess-environment preparation, wheel discovery and
   selection, and core-metadata synthesis and rendering — as executable
   Lean definitions, and proves the behavioural properties stated in the
   design document about them.  Python strings are modelled through their
   character lists (code points), Python dicts as ordered association
   lists, and the filesystem as explicit optional directory listings. -/

/-! ## Python string primitives -/

/-- Python string comparison, lexicographic by code point, on char lists. -/
def lexLe : List Char → List Char → Bool
  | [], _ => true
  | _ :: _, [] => false
  | a :: as, b :: bs =>
    if a.toNat < b.toNat then true
    else if b.toNat < a.toNat then false
    else lexLe as bs

/-- Python `a <= b` on strings. -/
def strLe (a b : String) : Bool := lexLe a.data b.data

/-- Python `s.startswith(p)`. -/
def strStarts (p s : String) : Bool := p.data.isPrefixOf s.data

/-- Python `s.endswith(p)`. -/
def strEnds (p s : String) : Bool := p.data.isSuffixOf s.data

/-- Python `c in s` for a single character. -/
def strHasChar (c : Char) (s : String) : Bool := s.data.contains c

/-- The characters Python `str.strip()` removes by default. -/
def pyWsChar (c : Char) : Bool :=
  c == ' ' || c == '\t' || c == '\n' || c == '\r' || c == '\x0b' || c == '\x0c'

/-- Strip characters satisfying `p` from both ends of a char list. -/
def stripEnds (p : Char → Bool) (xs : List Char) : List Char :=
  ((xs.dropWhile p).reverse.dropWhile p).reverse

/-- Python `s.strip()`. -/
def pyStrip (s : String) : String := ⟨stripEnds pyWsChar s.data⟩

/-- Python `s.strip(q)` for a single-character argument `q`. -/
def pyStripChar (q : Char) (s : String) : String := ⟨stripEnds (· == q) s.data⟩

/-- Python `s.split(sep, 1)` when `sep` occurs in `s`: the parts before and
after the first occurrence of the character `sep`. -/
def splitFirst? (sep : Char) : List Char → Option (List Char × List Char)
  | [] => none
  | c :: rest =>
    if c = sep then some ([], rest)
    else
      match splitFirst? sep rest with
      | none => none
      | some (a, b) => some (c :: a, b)

/-- Python `"\n".join(lines)`. -/
def joinLines : List String → String
  | [] => ""
  | [l] => l
  | l :: l' :: ls => l ++ "\n" ++ joinLines (l' :: ls)

/-- Decompose a char list into its lines: maximal `'\n'`-free segments.
`splitLines xs` always has one more entry than `xs` has newline characters. -/
def splitLines : List Char → List (List Char)
  | [] => [[]]
  | c :: rest =>
    if c = '\n' then [] :: splitLines rest
    else
      match splitLines rest with
      | [] => [[c]]
      | l :: ls => (c :: l) :: ls

/-- Insert a string into a `strLe`-sorted list, keeping it sorted. -/
def insertSorted (x : String) : List String → List String
  | [] => [x]
  | y :: ys => if strLe x y then x :: y :: ys else y :: insertSorted x ys

/-- Python `sorted(strings)` (insertion sort; ties are identical strings,
so the ascending rearrangement is unique). -/
def sortStr : List String → List String
  | [] => []
  | x :: xs => insertSorted x (sortStr xs)

/-! ## The subprocess environment (`_run_build_all`, lines 20–30)

`os.environ` and its copy are ordered mappings from variable name to
value; the copy is modelled as an association list and the three mutation
idioms of the source (`env[k] = v`, `env.pop(k, None)`, key lookup) as
pure list operations, so the ambient environment value is never touched. -/

/-- An environment: an ordered mapping of variable names to values. -/
abbrev Env := List (String × String)

/-- Python `env.get(k)` / `env[k]`: value of the first matching key. -/
def envGet? (env : Env) (k : String) : Option String :=
  match env with
  | [] => none
  | (k', v) :: rest => if k' = k then some v else envGet? rest k

/-- Python `env[k] = v` on a dict: overwrite the existing entry in place,
else append a new one. -/
def envSet (env : Env) (k v : String) : Env :=
  if (envGet? env k).isSome then
    env.map fun p => if p.1 = k then (k, v) else p
  else env ++ [(k, v)]

/-- Python `env.pop(k, None)`: drop the entry named `k`. -/
def envPop (env : Env) (k : String) : Env :=
  env.filter fun p => p.1 != k

/-- Lines 20–30 of build_backend.py: derive the build environment from a
copy of the ambient process environment.  `BUILD_ROOT` is overlaid with
`tempBuildRoot` only when absent or blank after `strip()`, `PYTHON_BIN`
is overlaid with `sys.executable`, and `PYTHONPATH` and
`PEP517_BUILD_BACKEND` are removed. -/
def buildEnv (ambient : Env) (tempBuildRoot pyExecutable : String) : Env :=
  let env := ambient
  let env :=
    if (envGet? env "BUILD_ROOT").isNone
        || pyStrip ((envGet? env "BUILD_ROOT").getD "") = "" then
      envSet env "BUILD_ROOT" tempBuildRoot
    else env
  let env := envSet env "PYTHON_BIN" pyExecutable
  let env := envPop env "PYTHONPATH"
  envPop env "PEP517_BUILD_BACKEND"

/-! ### Environment lemmas -/

theorem envGet?_overwrite_self (env : Env) (k v : String)
    (h : (envGet? env k).isSome) :
    envGet? (env.map fun p => if p.1 = k then (k, v) else p) k = some v := by
  induction env with
  | nil => simp [envGet?] at h
  | cons p rest ih =>
    obtain ⟨a, b⟩ := p
    simp only [List.map_cons]
    by_cases hk : a = k
    · have e1 : (if ((a, b) : String × String).1 = k then (k, v) else (a, b))
          = (k, v) := by simp [hk]
      rw [e1]
      simp [envGet?]
    · have e1 : (if ((a, b) : String × String).1 = k then (k, v) else (a, b))
          = (a, b) := by simp [hk]
      rw [e1]
      have h' : (envGet? rest k).isSome := by simpa [envGet?, hk] using h
      simp [envGet?, hk, ih h']

theorem envGet?_append_single_self (env : Env) (k v : String)
    (h : ¬ (envGet? env k).isSome) :
    envGet? (env ++ [(k, v)]) k = some v := by
  induction env with
  | nil => simp [envGet?]
  | cons p rest ih =>
    obtain ⟨a, b⟩ := p
    by_cases hk : a = k
    · exact absurd (by simp [envGet?, hk]) h
    · have h' : ¬ (envGet? rest k).isSome := by simpa [envGet?, hk] using h
      simp [envGet?, hk, ih h']

theorem envGet?_overwrite_other (env : Env) (k v k' : String) (hne : k' ≠ k) :
    envGet? (env.map fun p => if p.1 = k then (k, v) else p) k'
      = envGet? env k' := by
  induction env with
  | nil => simp [envGet?]
  | cons p rest ih =>
    obtain ⟨a, b⟩ := p
    simp only [List.map_cons]
    by_cases hk : a = k
    · have e1 : (if ((a, b) : String × String).1 = k then (k, v) else (a, b))
          = (k, v) := by simp [hk]
      rw [e1]
      have h2 : ¬ k = k' := fun h => hne h.symm
      have h3 : ¬ a = k' := by rw [hk]; exact h2
      simp [envGet?, h2, h3, ih]
    · have e1 : (if ((a, b) : String × String).1 = k then (k, v) else (a, b))
          = (a, b) := by simp [hk]
      rw [e1]
      simp [envGet?, ih]

theorem envGet?_append_single_other (env : Env) (k v k' : String)
    (hne : k' ≠ k) :
    envGet? (env ++ [(k, v)]) k' = envGet? env k' := by
  induction env with
  | nil =>
    have hkk : k ≠ k' := fun h => hne h.symm
    simp [envGet?, hkk]
  | cons p rest ih =>
    obtain ⟨a, b⟩ := p
    by_cases hk : a = k'
    · simp [envGet?, hk]
    · simp [envGet?, hk, ih]

theorem envGet?_envSet_self (env : Env) (k v : String) :
    envGet? (envSet env k v) k = some v := by
  unfold envSet
  split
  · exact envGet?_overwrite_self env k v (by assumption)
  · exact envGet?_append_single_self env k v (by assumption)

theorem envGet?_envSet_other (env : Env) (k v k' : String) (hne : k' ≠ k) :
    envGet? (envSet env k v) k' = envGet? env k' := by
  unfold envSet
  split
  · exact envGet?_overwrite_other env k v k' hne
  · exact envGet?_append_single_other env k v k' hne

theorem envGet?_envPop_self (env : Env) (k : String) :
    envGet? (envPop env k) k = none := by
  induction env with
  | nil => simp [envPop, envGet?]
  | cons p rest ih =>
    obtain ⟨a, b⟩ := p
    unfold envPop at ih ⊢
    rw [List.filter_cons]
    by_cases hk : a = k
    · have e1 : (((a, b) : String × String).1 != k) = false := by simp [hk]
      rw [e1]
      simpa using ih
    · have e1 : (((a, b) : String × String).1 != k) = true := by simp [hk]
      rw [e1]
      simpa [envGet?, hk] using ih

theorem envGet?_envPop_other (env : Env) (k k' : String) (hne : k' ≠ k) :
    envGet? (envPop env k) k' = envGet? env k' := by
  induction env with
  | nil => simp [envPop, envGet?]
  | cons p rest ih =>
    obtain ⟨a, b⟩ := p
    unfold envPop at ih ⊢
    rw [List.filter_cons]
    by_cases hk : a = k
    · have e1 : (((a, b) : String × String).1 != k) = false := by simp [hk]
      rw [e1]
      have h2 : ¬ a = k' := by rw [hk]; exact fun h => hne h.symm
      simpa [envGet?, h2] using ih
    · have e1 : (((a, b) : String × String).1 != k) = true := by simp [hk]
      rw [e1]
      simp [envGet?, ih]

/-- C9: for every build invocation, the subprocess environment is derived
from a copy of the ambient process environment by overlaying `BUILD_ROOT`
only when the ambient value is absent or blank, overlaying `PYTHON_BIN`
with the running interpreter's executable path, and removing `PYTHONPATH`
and `PEP517_BUILD_BACKEND`; every other variable keeps its ambient value,
and the ambient environment itself — a value the pure derivation never
touches — is unchanged. -/
theorem c9_build_environment (ambient : Env) (temp exe : String) :
    envGet? (buildEnv ambient temp exe) "BUILD_ROOT"
        = (match envGet? ambient "BUILD_ROOT" with
           | none => some temp
           | some v => if pyStrip v = "" then some temp else some v)
      ∧ envGet? (buildEnv ambient temp exe) "PYTHON_BIN" = some exe
      ∧ envGet? (buildEnv ambient temp exe) "PYTHONPATH" = none
      ∧ envGet? (buildEnv ambient temp exe) "PEP517_BUILD_BACKEND" = none
      ∧ ∀ k, k ≠ "BUILD_ROOT" → k ≠ "PYTHON_BIN" → k ≠ "PYTHONPATH" →
          k ≠ "PEP517_BUILD_BACKEND" →
          envGet? (buildEnv ambient temp exe) k = envGet? ambient k := by
  simp only [buildEnv]
  refine ⟨?_, ?_, ?_, ?_, ?_⟩
  · rw [envGet?_envPop_other _ _ _ (by decide),
      envGet?_envPop_other _ _ _ (by decide),
      envGet?_envSet_other _ _ _ _ (by decide)]
    cases hbr : envGet? ambient "BUILD_ROOT" with
    | none => simp [hbr, envGet?_envSet_self]
    | some v =>
      by_cases hv : pyStrip v = ""
      · simp [hbr, hv, envGet?_envSet_self]
      · simp [hbr, hv]
  · rw [envGet?_envPop_other _ _ _ (by decide),
      envGet?_envPop_other _ _ _ (by decide)]
    exact envGet?_envSet_self _ _ _
  · rw [envGet?_envPop_other _ _ _ (by decide)]
    exact envGet?_envPop_self _ _
  · exact envGet?_envPop_self _ _
  · intro k h1 h2 h3 h4
    rw [envGet?_envPop_other _ _ _ h4, envGet?_envPop_other _ _ _ h3,
      envGet?_envSet_other _ _ _ _ h2]
    split
    · rw [envGet?_envSet_other _ _ _ _ h1]
    · rfl

/-- Witness for C9 at a concrete environment: a blank ambient `BUILD_ROOT`
is overlaid with the scratch root, while an unrelated variable keeps its
ambient value. -/
theorem c9_build_environment_witness :
    envGet? (buildEnv [("PYTHONPATH", "x"), ("HOME", "h"), ("BUILD_ROOT", " ")]
        "/tmp/build" "/usr/bin/python") "BUILD_ROOT" = some "/tmp/build"
      ∧ envGet? (buildEnv [("PYTHONPATH", "x"), ("HOME", "h"), ("BUILD_ROOT", " ")]
        "/tmp/build" "/usr/bin/python") "HOME" = some "h" := by
  obtain ⟨h1, h2, h3, h4, h5⟩ :=
    c9_build_environment [("PYTHONPATH", "x"), ("HOME", "h"), ("BUILD_ROOT", " ")]
      "/tmp/build" "/usr/bin/python"
  refine ⟨?_, ?_⟩
  · rw [h1]
    decide
  · rw [h5 "HOME" (by decide) (by decide) (by decide) (by decide)]
    decide

/-! ## Wheel discovery (`_run_build_all`, lines 32–60) and selection
(`build_wheel`, lines 88–114)

A wheel path `<root>/<dirbase>/<base>` is modelled by the basename of its
containing directory (`os.path.basename(os.path.dirname(w))`) and its own
basename (`os.path.basename(w)`), the only two components the backend's
decision logic inspects.  The filesystem is modelled by the optional
listings of the two well-known output subdirectories under a root
(`none` when `os.path.isdir` is false). -/

/-- A produced wheel file. -/
structure Wheel where
  dirbase : String
  base : String
  deriving DecidableEq

/-- The two output subdirectories of one build root. -/
structure RootDirs where
  repaired : Option (List String)
  plain : Option (List String)
  deriving DecidableEq

/-- `glob.glob(os.path.join(cand, "*.whl"))` over a directory listing
(a glob pattern does not match names starting with a dot). -/
def globWhl (entries : List String) : List String :=
  entries.filter fun f => strEnds ".whl" f && !(strStarts "." f)

/-- Lines 49–55 for one candidate directory: nothing when the directory is
absent, else its `*.whl` entries in sorted order, tagged with the
directory basename. -/
def scanDir (dirbase : String) : Option (List String) → List Wheel
  | none => []
  | some entries => (sortStr (globWhl entries)).map fun f => ⟨dirbase, f⟩

/-- Lines 40–55: the wheels collected from the four candidate directories,
scratch root first, then the resolved `BUILD_ROOT`. -/
def candidateScan (temp root : RootDirs) : List Wheel :=
  scanDir "wheelhouse-repaired" temp.repaired
    ++ scanDir "wheelhouse" temp.plain
    ++ scanDir "wheelhouse-repaired" root.repaired
    ++ scanDir "wheelhouse" root.plain

/-- The builder invoker's error kinds (§7 of the design document): the
script-missing `FileNotFoundError`, the non-zero-exit
`CalledProcessError` of `subprocess.check_call`, and the `RuntimeError`
raised when no wheel file is found. -/
inductive BuildError where
  | missingDependency : BuildError
  | buildFailed : Int → BuildError
  | noArtifacts : BuildError
  deriving DecidableEq

/-- `_run_build_all` (lines 15–60): build the subprocess environment,
check the script, run it, and collect wheels from the candidate
directories of the scratch root and of the resolved `BUILD_ROOT`.
`fsAt` gives the output-directory listings under a root path;
`scriptExists` and `exitCode` model the two external outcomes.  The
source also returns `chosen_dir`, the first contributing directory,
which is `None` exactly when the wheel list is empty, so the error guard
`not wheels or chosen_dir is None` reduces to emptiness of the list. -/
def runBuildAll (ambient : Env) (tempBuildRoot pyExecutable : String)
    (fsAt : String → RootDirs) (scriptExists : Bool) (exitCode : Int) :
    Except BuildError (List Wheel) :=
  let env := buildEnv ambient tempBuildRoot pyExecutable
  if !scriptExists then .error .missingDependency
  else if exitCode ≠ 0 then .error (.buildFailed exitCode)
  else
    let buildRoot := (envGet? env "BUILD_ROOT").getD ""
    let wheels := candidateScan (fsAt tempBuildRoot) (fsAt buildRoot)
    if wheels.isEmpty then .error .noArtifacts
    else .ok wheels

/-- Line 102: does a basename start with either spelling of the
distribution-name prefix? -/
def nameMatch (base : String) : Bool :=
  strStarts "islpy_barvinok-" base || strStarts "islpy-barvinok-" base

/-- Lines 92–96: is a wheel in the "repaired" group? -/
def isRepaired (w : Wheel) : Bool := strEnds "wheelhouse-repaired" w.dirbase

/-- Lines 91–110 of `build_wheel`: search the repaired group, then the
full list, each in reverse order, for a name match; fall back to the last
repaired wheel, else the last wheel overall (`none` only on an empty
list, which `_run_build_all` excludes). -/
def selectWheel (wheels : List Wheel) : Option Wheel :=
  let repaired := wheels.filter isRepaired
  match repaired.reverse.find? fun w => nameMatch w.base with
  | some w => some w
  | none =>
    match wheels.reverse.find? fun w => nameMatch w.base with
    | some w => some w
    | none =>
      match repaired.getLast? with
      | some w => some w
      | none => wheels.getLast?

/-- C1: whenever the artifact set has a name-matching wheel in the
repaired group and a name-matching wheel in the primary group, the wheel
`build_wheel` selects is a name-matching wheel of the repaired group —
regardless of how the primary one sorts. -/
theorem c1_repaired_over_primary (wheels : List Wheel)
    (hrep : ∃ w ∈ wheels, isRepaired w = true ∧ nameMatch w.base = true)
    (_hpri : ∃ w ∈ wheels, isRepaired w = false ∧ nameMatch w.base = true) :
    ∃ w, selectWheel wheels = some w
      ∧ isRepaired w = true ∧ nameMatch w.base = true := by
  obtain ⟨w0, hw0mem, hw0rep, hw0match⟩ := hrep
  have hmem : w0 ∈ (wheels.filter isRepaired).reverse := by
    rw [List.mem_reverse, List.mem_filter]
    exact ⟨hw0mem, hw0rep⟩
  have hsome :
      ((wheels.filter isRepaired).reverse.find? fun w => nameMatch w.base).isSome := by
    rw [List.find?_isSome]
    exact ⟨w0, hmem, hw0match⟩
  obtain ⟨w, hw⟩ := Option.isSome_iff_exists.mp hsome
  refine ⟨w, ?_, ?_, ?_⟩
  · unfold selectWheel
    simp only [hw]
  · have hmemw : w ∈ (wheels.filter isRepaired).reverse :=
      List.mem_of_find?_eq_some hw
    exact (List.mem_filter.mp (List.mem_reverse.mp hmemw)).2
  · have hP := List.find?_some hw
    simpa using hP

/-- Witness for C1: with a matching repaired wheel and a matching primary
wheel that sorts later, the selected wheel is the repaired one. -/
theorem c1_repaired_over_primary_witness :
    ∃ w, selectWheel [⟨"wheelhouse-repaired", "islpy_barvinok-0.1.whl"⟩,
        ⟨"wheelhouse", "islpy_barvinok-0.2.whl"⟩] = some w
      ∧ isRepaired w = true ∧ nameMatch w.base = true :=
  c1_repaired_over_primary
    [⟨"wheelhouse-repaired", "islpy_barvinok-0.1.whl"⟩,
      ⟨"wheelhouse", "islpy_barvinok-0.2.whl"⟩]
    ⟨⟨"wheelhouse-repaired", "islpy_barvinok-0.1.whl"⟩,
      by decide, by decide, by decide⟩
    ⟨⟨"wheelhouse", "islpy_barvinok-0.2.whl"⟩,
      by decide, by decide, by decide⟩

/-- C3: when the build script exists and the external process exits zero
but creates no output directories under any root, `_run_build_all` fails
with exactly the no-artifacts error — no other outcome is possible. -/
theorem c3_no_artifacts_error (ambient : Env) (temp exe : String)
    (fsAt : String → RootDirs) (exitCode : Int)
    (hfs : ∀ r, fsAt r = ⟨none, none⟩) (hexit : exitCode = 0) :
    runBuildAll ambient temp exe fsAt true exitCode
      = .error .noArtifacts := by
  subst hexit
  unfold runBuildAll
  simp [hfs, candidateScan, scanDir]

/-- Witness for C3 at a concrete invocation with an empty filesystem. -/
theorem c3_no_artifacts_error_witness :
    runBuildAll [] "/tmp/scratch" "/usr/bin/python"
        (fun _ => ⟨none, none⟩) true 0 = .error .noArtifacts :=
  c3_no_artifacts_error [] "/tmp/scratch" "/usr/bin/python"
    (fun _ => ⟨none, none⟩) 0 (fun _ => rfl) rfl

/-! ### Ordering facts about the Python string comparison -/

theorem lexLe_refl : ∀ a : List Char, lexLe a a = true
  | [] => rfl
  | c :: cs => by
    unfold lexLe
    simp [lexLe_refl cs]

theorem lexLe_total : ∀ a b : List Char, lexLe a b = true ∨ lexLe b a = true
  | [], _ => Or.inl rfl
  | _ :: _, [] => Or.inr rfl
  | a :: as, b :: bs => by
    unfold lexLe
    rcases Nat.lt_trichotomy a.toNat b.toNat with h | h | h
    · left
      simp [h]
    · have h1 : ¬ a.toNat < b.toNat := by omega
      have h2 : ¬ b.toNat < a.toNat := by omega
      rcases lexLe_total as bs with ih | ih
      · left
        simp [h1, h2, ih]
      · right
        simp [h1, h2, ih]
    · right
      simp [h]

theorem lexLe_trans : ∀ a b c : List Char,
    lexLe a b = true → lexLe b c = true → lexLe a c = true
  | [], _, _, _, _ => rfl
  | _ :: _, [], _, h, _ => by simp [lexLe] at h
  | _ :: _, _ :: _, [], _, h => by simp [lexLe] at h
  | a :: as, b :: bs, c :: cs, h1, h2 => by
    unfold lexLe at h1 h2 ⊢
    by_cases hab : a.toNat < b.toNat
    · by_cases hbc : b.toNat < c.toNat
      · simp [show a.toNat < c.toNat by omega]
      · by_cases hcb : c.toNat < b.toNat
        · simp [hbc, hcb] at h2
        · simp [show a.toNat < c.toNat by omega]
    · by_cases hba : b.toNat < a.toNat
      · simp [hab, hba] at h1
      · by_cases hbc : b.toNat < c.toNat
        · simp [show a.toNat < c.toNat by omega]
        · by_cases hcb : c.toNat < b.toNat
          · simp [hbc, hcb] at h2
          · have hac : ¬ a.toNat < c.toNat := by omega
            have hca : ¬ c.toNat < a.toNat := by omega
            simp [hab, hba] at h1
            simp [hbc, hcb] at h2
            simp [hac, hca, lexLe_trans as bs cs h1 h2]

theorem strLe_refl (a : String) : strLe a a = true := lexLe_refl a.data

theorem strLe_total (a b : String) : strLe a b = true ∨ strLe b a = true :=
  lexLe_total a.data b.data

theorem strLe_trans {a b c : String}
    (h1 : strLe a b = true) (h2 : strLe b c = true) : strLe a c = true :=
  lexLe_trans a.data b.data c.data h1 h2

theorem perm_insertSorted (x : String) (l : List String) :
    (insertSorted x l).Perm (x :: l) := by
  induction l with
  | nil => exact List.Perm.refl _
  | cons y ys ih =>
    unfold insertSorted
    by_cases h : strLe x y = true
    · simp [h]
    · simp only [h, if_neg, Bool.false_eq_true, not_false_eq_true, ite_false]
      exact (List.Perm.cons y ih).trans (List.Perm.swap x y ys)

theorem pairwise_insertSorted (x : String) (l : List String)
    (hl : List.Pairwise (fun a b => strLe a b = true) l) :
    List.Pairwise (fun a b => strLe a b = true) (insertSorted x l) := by
  induction l with
  | nil => simp [insertSorted]
  | cons y ys ih =>
    obtain ⟨hy, hys⟩ := List.pairwise_cons.mp hl
    unfold insertSorted
    by_cases h : strLe x y = true
    · simp only [h, ite_true]
      refine List.pairwise_cons.mpr ⟨?_, hl⟩
      intro b hb
      rcases List.mem_cons.mp hb with rfl | hb'
      · exact h
      · exact strLe_trans h (hy b hb')
    · simp only [h, Bool.false_eq_true, not_false_eq_true, ite_false]
      refine List.pairwise_cons.mpr ⟨?_, ih hys⟩
      intro b hb
      have hb' : b ∈ x :: ys := (perm_insertSorted x ys).subset hb
      rcases List.mem_cons.mp hb' with hbx | hb''
      · rw [hbx]
        rcases strLe_total x y with h1 | h1
        · exact absurd h1 h
        · exact h1
      · exact hy b hb''

theorem sortStr_sorted (l : List String) :
    List.Pairwise (fun a b => strLe a b = true) (sortStr l) := by
  induction l with
  | nil => simp [sortStr]
  | cons x xs ih => exact pairwise_insertSorted x (sortStr xs) ih

theorem sortStr_perm (l : List String) : (sortStr l).Perm l := by
  induction l with
  | nil => exact List.Perm.refl _
  | cons x xs ih =>
    exact (perm_insertSorted x (sortStr xs)).trans (ih.cons x)

/-- In a `strLe`-pairwise list, the last element bounds every member. -/
theorem getLast_max {α : Type} (f : α → String) :
    ∀ (l : List α), List.Pairwise (fun a b => strLe (f a) (f b) = true) l →
      ∀ (hne : l ≠ []) (x : α), x ∈ l → strLe (f x) (f (l.getLast hne)) = true
  | [], _, hne, _, _ => absurd rfl hne
  | [a], _, _, x, hx => by
    have hxa : x = a := by simpa using hx
    subst hxa
    exact strLe_refl (f x)
  | a :: b :: t, hp, hne, x, hx => by
    have hcons := List.pairwise_cons.mp hp
    have hlast_eq : (a :: b :: t).getLast hne
        = (b :: t).getLast (by simp) := List.getLast_cons (by simp)
    rcases List.mem_cons.mp hx with hxa | hxt
    · subst hxa
      exact hlast_eq ▸ hcons.1 _ (List.getLast_mem (by simp))
    · exact hlast_eq ▸ getLast_max f (b :: t) hcons.2 (by simp) x hxt

/-! ### Structure of the collected wheel list -/

theorem dirbase_of_mem_scanDir {d : String} {o : Option (List String)}
    {w : Wheel} (h : w ∈ scanDir d o) : w.dirbase = d := by
  cases o with
  | none => simp [scanDir] at h
  | some entries =>
    simp only [scanDir, List.mem_map] at h
    obtain ⟨f, _, rfl⟩ := h
    rfl

theorem isRepaired_of_mem_scanDir {d : String} {o : Option (List String)}
    {w : Wheel} (h : w ∈ scanDir d o) :
    isRepaired w = strEnds "wheelhouse-repaired" d := by
  rw [isRepaired, dirbase_of_mem_scanDir h]

theorem filter_scanDir_repaired (o : Option (List String)) :
    (scanDir "wheelhouse-repaired" o).filter isRepaired
      = scanDir "wheelhouse-repaired" o := by
  apply List.filter_eq_self.mpr
  intro w hw
  rw [isRepaired_of_mem_scanDir hw]
  decide

theorem filter_scanDir_plain (o : Option (List String)) :
    (scanDir "wheelhouse" o).filter isRepaired = [] := by
  apply List.filter_eq_nil_iff.mpr
  intro w hw
  rw [isRepaired_of_mem_scanDir hw]
  decide

theorem filter_candidateScan (temp root : RootDirs) :
    (candidateScan temp root).filter isRepaired
      = scanDir "wheelhouse-repaired" temp.repaired
        ++ scanDir "wheelhouse-repaired" root.repaired := by
  unfold candidateScan
  simp [List.filter_append, filter_scanDir_repaired, filter_scanDir_plain]

theorem scanDir_pairwise (d : String) (o : Option (List String)) :
    List.Pairwise (fun a b : Wheel => strLe a.base b.base = true)
      (scanDir d o) := by
  cases o with
  | none => simp [scanDir]
  | some entries =>
    exact List.Pairwise.map _ (fun a b h => h) (sortStr_sorted (globWhl entries))

theorem nodup_scanDir (d : String) (o : Option (List String))
    (h : ∀ l, o = some l → l.Nodup) : (scanDir d o).Nodup := by
  cases o with
  | none => simp [scanDir]
  | some entries =>
    have he : entries.Nodup := h entries rfl
    unfold scanDir
    apply List.Nodup.map
    · intro a b hab
      simpa using hab
    · exact ((sortStr_perm (globWhl entries)).nodup_iff).mpr (he.filter _)

/-- C2 as stated fails on the code: with an external `BUILD_ROOT` distinct
from the scratch root, the external process leaves `z-2.whl` in the
scratch root's repaired directory and `a-1.whl` in the build root's
repaired directory; no basename matches the distribution-name prefix, yet
`build_wheel` selects `a-1.whl` — the last repaired wheel in scan order —
even though the repaired artifact `z-2.whl` sorts strictly later. -/
theorem c2_counterexample :
    runBuildAll [("BUILD_ROOT", "/cache")] "/tmp/s" "/py"
        (fun r => if r = "/cache" then ⟨some ["a-1.whl"], none⟩
          else ⟨some ["z-2.whl"], none⟩) true 0
      = .ok (candidateScan ⟨some ["z-2.whl"], none⟩ ⟨some ["a-1.whl"], none⟩)
    ∧ (∀ w ∈ candidateScan ⟨some ["z-2.whl"], none⟩ ⟨some ["a-1.whl"], none⟩,
        nameMatch w.base = false)
    ∧ selectWheel (candidateScan ⟨some ["z-2.whl"], none⟩ ⟨some ["a-1.whl"], none⟩)
        = some ⟨"wheelhouse-repaired", "a-1.whl"⟩
    ∧ ⟨"wheelhouse-repaired", "z-2.whl"⟩
        ∈ candidateScan ⟨some ["z-2.whl"], none⟩ ⟨some ["a-1.whl"], none⟩
    ∧ isRepaired ⟨"wheelhouse-repaired", "z-2.whl"⟩ = true
    ∧ strLe "a-1.whl" "z-2.whl" = true
    ∧ ("a-1.whl" : String) ≠ "z-2.whl" := by
  exact ⟨by rfl, by decide, by decide, by decide, by decide, by decide, by decide⟩

/-- C2 amended: when the resolved output root coincides with the scratch
root — the default whenever the ambient `BUILD_ROOT` is absent or blank,
so that each group's wheels come from duplicated scans of a single
directory — and no basename matches either spelling of the distribution
prefix, `build_wheel` selects the lexicographically-last wheel of the
repaired group when that group is non-empty, and otherwise the
lexicographically-last wheel of the whole set.  (With two distinct roots
the code instead takes the last wheel of the group in scan order, as the
counterexample shows.) -/
theorem c2_amended_fallback (temp : RootDirs)
    (hnm : ∀ w ∈ candidateScan temp temp, nameMatch w.base = false)
    (hne : candidateScan temp temp ≠ []) :
    ∃ w, selectWheel (candidateScan temp temp) = some w
      ∧ w ∈ candidateScan temp temp
      ∧ ((∃ x ∈ candidateScan temp temp, isRepaired x = true) →
          isRepaired w = true
            ∧ ∀ x ∈ candidateScan temp temp, isRepaired x = true →
                strLe x.base w.base = true)
      ∧ ((¬ ∃ x ∈ candidateScan temp temp, isRepaired x = true) →
          ∀ x ∈ candidateScan temp temp, strLe x.base w.base = true) := by
  have hfind1 : ((candidateScan temp temp).filter isRepaired).reverse.find?
      (fun w => nameMatch w.base) = none := by
    rw [List.find?_eq_none]
    intro x hx
    have hx' : x ∈ candidateScan temp temp :=
      List.mem_of_mem_filter (List.mem_reverse.mp hx)
    simp [hnm x hx']
  have hfind2 : (candidateScan temp temp).reverse.find?
      (fun w => nameMatch w.base) = none := by
    rw [List.find?_eq_none]
    intro x hx
    simp [hnm x (List.mem_reverse.mp hx)]
  have hsel : selectWheel (candidateScan temp temp)
      = match ((candidateScan temp temp).filter isRepaired).getLast? with
        | some w => some w
        | none => (candidateScan temp temp).getLast? := by
    simp only [selectWheel, hfind1, hfind2]
  by_cases hA : scanDir "wheelhouse-repaired" temp.repaired = []
  · -- no repaired wheels: the whole set is the plain directory scanned twice
    have hwB : candidateScan temp temp
        = scanDir "wheelhouse" temp.plain ++ scanDir "wheelhouse" temp.plain := by
      unfold candidateScan
      rw [hA]
      simp
    have hBne : scanDir "wheelhouse" temp.plain ≠ [] := by
      intro h
      exact hne (by rw [hwB, h]; rfl)
    have hglast : ((candidateScan temp temp).filter isRepaired).getLast? = none := by
      rw [filter_candidateScan, hA]
      rfl
    refine ⟨(scanDir "wheelhouse" temp.plain).getLast hBne, ?_, ?_, ?_, ?_⟩
    · rw [hsel, hglast, hwB,
        List.getLast?_append_of_ne_nil _ hBne,
        List.getLast?_eq_getLast _ hBne]
    · rw [hwB]
      exact List.mem_append_right _ (List.getLast_mem hBne)
    · intro hex
      obtain ⟨x, hxmem, hxrep⟩ := hex
      have : x ∈ (candidateScan temp temp).filter isRepaired :=
        List.mem_filter.mpr ⟨hxmem, hxrep⟩
      rw [filter_candidateScan, hA] at this
      simp at this
    · intro _
      intro x hx
      have hxB : x ∈ scanDir "wheelhouse" temp.plain := by
        rw [hwB] at hx
        rcases List.mem_append.mp hx with h | h <;> exact h
      exact getLast_max Wheel.base _ (scanDir_pairwise _ _) hBne x hxB
  · -- the repaired directory contributes: its last (sorted) wheel wins
    have hglast : ((candidateScan temp temp).filter isRepaired).getLast?
        = some ((scanDir "wheelhouse-repaired" temp.repaired).getLast hA) := by
      rw [filter_candidateScan,
        List.getLast?_append_of_ne_nil _ hA,
        List.getLast?_eq_getLast _ hA]
    have hsub : ∀ x ∈ scanDir "wheelhouse-repaired" temp.repaired,
        x ∈ candidateScan temp temp := by
      intro x hx
      unfold candidateScan
      simp [List.mem_append, hx]
    have hwmem : (scanDir "wheelhouse-repaired" temp.repaired).getLast hA
        ∈ scanDir "wheelhouse-repaired" temp.repaired := List.getLast_mem hA
    have hwrep : isRepaired
        ((scanDir "wheelhouse-repaired" temp.repaired).getLast hA) = true := by
      rw [isRepaired_of_mem_scanDir hwmem]
      decide
    refine ⟨(scanDir "wheelhouse-repaired" temp.repaired).getLast hA,
      ?_, ?_, ?_, ?_⟩
    · rw [hsel, hglast]
    · exact hsub _ hwmem
    · intro _
      refine ⟨hwrep, ?_⟩
      intro x hx hxrep
      have hxfil : x ∈ (candidateScan temp temp).filter isRepaired :=
        List.mem_filter.mpr ⟨hx, hxrep⟩
      rw [filter_candidateScan] at hxfil
      have hxA : x ∈ scanDir "wheelhouse-repaired" temp.repaired := by
        rcases List.mem_append.mp hxfil with h | h <;> exact h
      exact getLast_max Wheel.base _ (scanDir_pairwise _ _) hA x hxA
    · intro hno
      exact absurd ⟨_, hsub _ hwmem, hwrep⟩ hno

/-- Witness for the amended C2 at a concrete scratch root holding one
repaired and one primary wheel, neither matching the prefix. -/
theorem c2_amended_fallback_witness :
    ∃ w, selectWheel (candidateScan ⟨some ["r-1.whl"], some ["p-9.whl"]⟩
        ⟨some ["r-1.whl"], some ["p-9.whl"]⟩) = some w
      ∧ w ∈ candidateScan ⟨some ["r-1.whl"], some ["p-9.whl"]⟩
          ⟨some ["r-1.whl"], some ["p-9.whl"]⟩
      ∧ ((∃ x ∈ candidateScan ⟨some ["r-1.whl"], some ["p-9.whl"]⟩
            ⟨some ["r-1.whl"], some ["p-9.whl"]⟩, isRepaired x = true) →
          isRepaired w = true
            ∧ ∀ x ∈ candidateScan ⟨some ["r-1.whl"], some ["p-9.whl"]⟩
                ⟨some ["r-1.whl"], some ["p-9.whl"]⟩, isRepaired x = true →
                strLe x.base w.base = true)
      ∧ ((¬ ∃ x ∈ candidateScan ⟨some ["r-1.whl"], some ["p-9.whl"]⟩
            ⟨some ["r-1.whl"], some ["p-9.whl"]⟩, isRepaired x = true) →
          ∀ x ∈ candidateScan ⟨some ["r-1.whl"], some ["p-9.whl"]⟩
            ⟨some ["r-1.whl"], some ["p-9.whl"]⟩,
            strLe x.base w.base = true) :=
  c2_amended_fallback ⟨some ["r-1.whl"], some ["p-9.whl"]⟩
    (by decide) (by decide)

/-- A successful invocation with script present and zero exit reduces to
the emptiness test on the collected wheels of the two (here equal)
roots. -/
theorem runBuildAll_ok_shape (ambient : Env) (temp exe : String)
    (fsAt : String → RootDirs)
    (hroot : envGet? (buildEnv ambient temp exe) "BUILD_ROOT" = some temp) :
    runBuildAll ambient temp exe fsAt true 0
      = if (candidateScan (fsAt temp) (fsAt temp)).isEmpty
        then .error .noArtifacts
        else .ok (candidateScan (fsAt temp) (fsAt temp)) := by
  simp [runBuildAll, hroot]

/-- C10: when the ambient environment supplies no non-blank `BUILD_ROOT`,
the resolved output root equals the temporary scratch root, so the two
candidate directories are scanned twice each and every discovered wheel
occurs exactly twice in the collected artifact sequence (directory
listings being duplicate-free). -/
theorem c10_blank_root_duplicates (ambient : Env) (temp exe : String)
    (fsAt : String → RootDirs)
    (hblank : envGet? ambient "BUILD_ROOT" = none
      ∨ ∃ v, envGet? ambient "BUILD_ROOT" = some v ∧ pyStrip v = "")
    (hnr : ∀ l, (fsAt temp).repaired = some l → l.Nodup)
    (hnp : ∀ l, (fsAt temp).plain = some l → l.Nodup) :
    envGet? (buildEnv ambient temp exe) "BUILD_ROOT" = some temp
      ∧ ∀ wheels, runBuildAll ambient temp exe fsAt true 0 = .ok wheels →
          ∀ w ∈ wheels, wheels.count w = 2 := by
  have hroot : envGet? (buildEnv ambient temp exe) "BUILD_ROOT" = some temp := by
    simp only [buildEnv]
    rw [envGet?_envPop_other _ _ _ (by decide),
      envGet?_envPop_other _ _ _ (by decide),
      envGet?_envSet_other _ _ _ _ (by decide)]
    rcases hblank with h | ⟨v, hv, hstrip⟩
    · simp [h, envGet?_envSet_self]
    · simp [hv, hstrip, envGet?_envSet_self]
  refine ⟨hroot, ?_⟩
  intro wheels hok w hw
  have hwheels : wheels = candidateScan (fsAt temp) (fsAt temp) := by
    rw [runBuildAll_ok_shape ambient temp exe fsAt hroot] at hok
    by_cases hemp : (candidateScan (fsAt temp) (fsAt temp)).isEmpty
    · rw [if_pos hemp] at hok
      exact absurd hok (by simp)
    · rw [if_neg hemp] at hok
      exact (Except.ok.inj hok).symm
  subst hwheels
  have hndA : (scanDir "wheelhouse-repaired" (fsAt temp).repaired).Nodup :=
    nodup_scanDir _ _ hnr
  have hndB : (scanDir "wheelhouse" (fsAt temp).plain).Nodup :=
    nodup_scanDir _ _ hnp
  have hsplit : w ∈ scanDir "wheelhouse-repaired" (fsAt temp).repaired
      ∨ w ∈ scanDir "wheelhouse" (fsAt temp).plain := by
    unfold candidateScan at hw
    rcases List.mem_append.mp hw with h | h
    · rcases List.mem_append.mp h with h' | h'
      · rcases List.mem_append.mp h' with h'' | h''
        · exact Or.inl h''
        · exact Or.inr h''
      · exact Or.inl h'
    · exact Or.inr h
  unfold candidateScan
  rw [List.count_append, List.count_append, List.count_append]
  rcases hsplit with hA | hB
  · have hcA : (scanDir "wheelhouse-repaired" (fsAt temp).repaired).count w = 1 :=
      List.count_eq_one_of_mem hndA hA
    have hnB : w ∉ scanDir "wheelhouse" (fsAt temp).plain := by
      intro hB
      have h1 := dirbase_of_mem_scanDir hA
      have h2 := dirbase_of_mem_scanDir hB
      rw [h1] at h2
      exact absurd h2 (by decide)
    have hcB : (scanDir "wheelhouse" (fsAt temp).plain).count w = 0 :=
      List.count_eq_zero.mpr hnB
    rw [hcA, hcB]
  · have hcB : (scanDir "wheelhouse" (fsAt temp).plain).count w = 1 :=
      List.count_eq_one_of_mem hndB hB
    have hnA : w ∉ scanDir "wheelhouse-repaired" (fsAt temp).repaired := by
      intro hA
      have h1 := dirbase_of_mem_scanDir hA
      have h2 := dirbase_of_mem_scanDir hB
      rw [h1] at h2
      exact absurd h2 (by decide)
    have hcA : (scanDir "wheelhouse-repaired" (fsAt temp).repaired).count w = 0 :=
      List.count_eq_zero.mpr hnA
    rw [hcA, hcB]

/-- Witness for C10: with an empty ambient environment and one repaired
wheel on disk, the resolved root is the scratch root and the wheel is
listed twice. -/
theorem c10_blank_root_duplicates_witness :
    envGet? (buildEnv [] "/t" "/py") "BUILD_ROOT" = some "/t"
      ∧ (candidateScan ⟨some ["w.whl"], none⟩ ⟨some ["w.whl"], none⟩).count
          ⟨"wheelhouse-repaired", "w.whl"⟩ = 2 := by
  obtain ⟨h1, h2⟩ := c10_blank_root_duplicates [] "/t" "/py"
    (fun _ => ⟨some ["w.whl"], none⟩) (Or.inl rfl)
    (by intro l hl; injection hl with h; rw [← h]; decide)
    (by intro l hl; exact Option.noConfusion hl)
  refine ⟨h1, ?_⟩
  exact h2 (candidateScan ⟨some ["w.whl"], none⟩ ⟨some ["w.whl"], none⟩)
    (by rfl) ⟨"wheelhouse-repaired", "w.whl"⟩ (by decide)

/-! ## Metadata synthesis (`_read_project_version`,
`_read_project_core_metadata`) and PKG-INFO rendering (`build_sdist`)

Parsed descriptor data is Python data: `None`, strings, booleans,
integers, sequences and string-keyed mappings.  The derivation code calls
`.get` on values it assumes are mappings; on anything else Python raises
`AttributeError`, which the embedding returns through `Except`. -/

/-- A Python value as it appears in parsed descriptor data. -/
inductive PVal where
  | none : PVal
  | str : String → PVal
  | bool : Bool → PVal
  | int : Int → PVal
  | list : List PVal → PVal
  | table : List (String × PVal) → PVal

/-- First-match lookup in a string-keyed mapping. -/
def pyLookup (kvs : List (String × PVal)) (k : String) : Option PVal :=
  match kvs with
  | [] => Option.none
  | (k', v) :: rest => if k' = k then some v else pyLookup rest k

/-- Python truthiness. -/
def pyTruthy : PVal → Bool
  | .none => false
  | .str s => s != ""
  | .bool b => b
  | .int n => n != 0
  | .list l => !l.isEmpty
  | .table t => !t.isEmpty

/-- Python `a or b`. -/
def pyOr (a b : PVal) : PVal := if pyTruthy a then a else b

/-- The exception the metadata derivation can raise: calling `.get` on a
value that is not a mapping. -/
inductive PyErr where
  | attributeError : PyErr
  deriving DecidableEq

/-- Python `x.get(k, default)`: mapping lookup, or `AttributeError` when
`x` is not a dict. -/
def pyGet (x : PVal) (k : String) (default : PVal) : Except PyErr PVal :=
  match x with
  | .table kvs => .ok ((pyLookup kvs k).getD default)
  | _ => .error .attributeError

/-- The dict `_read_project_core_metadata` returns (lines 276–285), with
the raw values the derivation produced. -/
structure MetaDictV where
  name : PVal
  version : PVal
  summary : PVal
  home_page : PVal
  author : PVal
  requires_python : PVal
  classifiers : PVal
  project_urls : PVal

/-- Lines 266–273: the author value — only the first entry of the
`authors` value is read, its `name` key (collapsed to `""` when falsy)
when it is a mapping, the entry itself when a plain string, `""` in
every other case. -/
def authorPVal (authors : PVal) : PVal :=
  match authors with
  | .list (first :: _) =>
    match first with
    | .table kvs => pyOr ((pyLookup kvs "name").getD .none) (.str "")
    | .str s => .str s
    | _ => .str ""
  | _ => .str ""

/-- Line 284: `urls if isinstance(urls, dict) else {}`. -/
def projUrlsPVal (urls : PVal) : PVal :=
  match urls with
  | .table t => PVal.table t
  | _ => PVal.table []

/-- Lines 256–285 of `_read_project_core_metadata`: derive the metadata
dict from parsed descriptor data, `versionDefault` being the eagerly
evaluated `_read_project_version(root_dir)` fallback. -/
def deriveCoreMetadata (data : List (String × PVal)) (versionDefault : String) :
    Except PyErr MetaDictV := do
  let project := (pyLookup data "project").getD (.table [])
  let name ← pyGet project "name" (.str "islpy-barvinok")
  let version ← pyGet project "version" (.str versionDefault)
  let summary ← pyGet project "description" (.str "")
  let requires_python ← pyGet project "requires-python" (.str "")
  let urls ← pyGet ((pyLookup data "project").getD (.table [])) "urls" (.table [])
  let hp1 ← pyGet urls "Homepage" .none
  let hp2 ← pyGet urls "Home" .none
  let home_page := pyOr hp1 (pyOr hp2 (.str ""))
  let authors ← pyGet project "authors" (.list [])
  let author := authorPVal authors
  let classifiersRaw ← pyGet project "classifiers" (.list [])
  let classifiers := pyOr classifiersRaw (.list [])
  let project_urls := projUrlsPVal urls
  pure ⟨name, version, summary, home_page, author, requires_python,
    classifiers, project_urls⟩

/-- Lines 250–252: split a line at the first `=` and normalise the two
pieces — `key.strip()` and `val.strip().strip('"').strip("'")`. -/
def parseKeyVal (line : String) : Option (String × String) :=
  match splitFirst? '=' line.data with
  | Option.none => Option.none
  | some (ks, vs) =>
    some (pyStrip ⟨ks⟩, pyStripChar '\'' (pyStripChar '"' (pyStrip ⟨vs⟩)))

/-- Lines 240–253: the tolerant line-oriented `[project]` reader used when
the structured parse is unavailable — flat string fields, later
assignments overwriting earlier ones, stopping at the next bracketed
section header. -/
def fallbackLoop : List String → Bool → List (String × String) →
    List (String × String)
  | [], _, proj => proj
  | raw :: rest, inProject, proj =>
    let line := pyStrip raw
    if line = "[project]" then fallbackLoop rest true proj
    else if inProject && strStarts "[" line && strHasChar ']' line then proj
    else if inProject && strHasChar '=' line then
      match parseKeyVal line with
      | Option.none => fallbackLoop rest inProject proj
      | some (key, val) => fallbackLoop rest inProject (envSet proj key val)
    else fallbackLoop rest inProject proj

/-- Lines 232–254: the flat `[project]` mapping of the fallback read —
empty when the file cannot be opened (`lines = []`). -/
def fallbackProject (file : Option (List String)) : List (String × String) :=
  fallbackLoop (file.getD []) false []

/-- `_read_project_version` (lines 195–216): scan the `[project]` section
for a `version` line; `"0.0.0"` when the file is unreadable, the section
or the line is missing, or the section ends first.  (File lines are
modelled without their trailing terminator; every use in the source
strips the line or is unaffected by a trailing newline.) -/
def versionLoop : List String → Bool → String
  | [], _ => "0.0.0"
  | line :: rest, inProject =>
    if pyStrip line = "[project]" then versionLoop rest true
    else if inProject && strStarts "version" (pyStrip line) then
      match splitFirst? '=' line.data with
      | Option.none => versionLoop rest inProject
      | some (_, vs) => pyStripChar '\'' (pyStripChar '"' (pyStrip ⟨vs⟩))
    else if inProject && strStarts "[" line && strHasChar ']' line then "0.0.0"
    else versionLoop rest inProject

/-- `_read_project_version` over the optional descriptor file. -/
def readProjectVersion (file : Option (List String)) : String :=
  versionLoop (file.getD []) false

/-- `_read_project_core_metadata` (lines 219–285).  `tomlResult` is the
structured parse outcome: `some data` when `tomllib` imported and
`tomllib.load` succeeded, `none` when the import, the open or the load
raised (in particular whenever the file is absent or not valid TOML), in
which case the fallback line reader supplies a flat string-valued
`project` table.  `file` is the optional line content of the descriptor
(`none` when it cannot be opened; it must then also be unavailable to
`tomllib`, so `tomlResult` is `none` too in any real invocation). -/
def readProjectCoreMetadata (tomlResult : Option (List (String × PVal)))
    (file : Option (List String)) : Except PyErr MetaDictV :=
  let data : List (String × PVal) :=
    match tomlResult with
    | some d => d
    | Option.none =>
      [("project", .table ((fallbackProject file).map fun p => (p.1, PVal.str p.2)))]
  deriveCoreMetadata data (readProjectVersion file)

/-- The metadata dict with all fields well-typed: the shape every
descriptor whose fields follow §3's ProjectDescriptor typing produces,
and the shape `build_sdist`'s rendering consumes. -/
structure MetadataRecord where
  name : String
  version : String
  summary : String
  home_page : String
  author : String
  requires_python : String
  classifiers : List String
  project_urls : List (String × String)
  deriving DecidableEq

/-- Embed a typed record into the raw dict shape. -/
def MetadataRecord.toDictV (m : MetadataRecord) : MetaDictV :=
  ⟨.str m.name, .str m.version, .str m.summary, .str m.home_page,
    .str m.author, .str m.requires_python,
    .list (m.classifiers.map PVal.str),
    .table (m.project_urls.map fun p => (p.1, PVal.str p.2))⟩

/-- Lines 146–168 of `build_sdist`: the PKG-INFO field lines composed for
a metadata record and the best-effort long description read from
README.md. -/
def pkgInfoLines (meta : MetadataRecord) (long_description : String) :
    List String :=
  ["Metadata-Version: 2.1", "Name: " ++ meta.name, "Version: " ++ meta.version]
    ++ (if meta.summary ≠ "" then ["Summary: " ++ meta.summary] else [])
    ++ (if meta.home_page ≠ "" then ["Home-page: " ++ meta.home_page] else [])
    ++ (if meta.author ≠ "" then ["Author: " ++ meta.author] else [])
    ++ (if meta.requires_python ≠ "" then
          ["Requires-Python: " ++ meta.requires_python] else [])
    ++ ["License-File: LICENSE"]
    ++ meta.classifiers.map (fun c => "Classifier: " ++ c)
    ++ meta.project_urls.map (fun p => "Project-URL: " ++ p.1 ++ ", " ++ p.2)
    ++ (if long_description ≠ "" then
          ["Description-Content-Type: text/markdown", "", long_description]
        else [])

/-- Line 170: the document — the lines joined by newlines, plus one
appended newline. -/
def pkgInfoContent (meta : MetadataRecord) (long_description : String) : String :=
  joinLines (pkgInfoLines meta long_description) ++ "\n"

/-- The lines of a rendered document: its maximal newline-free segments. -/
def docLines (s : String) : List (List Char) := splitLines s.data

/-! ### Well-formed descriptors (§3 ProjectDescriptor) -/

/-- A descriptor author entry: a structured mapping or a plain string. -/
inductive AuthorEntry where
  | table : List (String × String) → AuthorEntry
  | str : String → AuthorEntry

/-- The parsed-value image of an author entry. -/
def AuthorEntry.toPVal : AuthorEntry → PVal
  | .table kvs => .table (kvs.map fun p => (p.1, PVal.str p.2))
  | .str s => .str s

/-- The ProjectDescriptor of §3: the optional `[project]` fields the
synthesizer consumes, with the typing the design document gives them. -/
structure ProjectDescriptor where
  name : Option String
  version : Option String
  description : Option String
  requires_python : Option String
  authors : Option (List AuthorEntry)
  classifiers : Option (List String)
  urls : Option (List (String × String))

/-- One optional table entry. -/
def optEntry (k : String) : Option PVal → List (String × PVal)
  | Option.none => []
  | some v => [(k, v)]

/-- The `[project]` table `tomllib` yields for a well-formed descriptor. -/
def projTable (d : ProjectDescriptor) : List (String × PVal) :=
  optEntry "name" (d.name.map PVal.str)
    ++ optEntry "version" (d.version.map PVal.str)
    ++ optEntry "description" (d.description.map PVal.str)
    ++ optEntry "requires-python" (d.requires_python.map PVal.str)
    ++ optEntry "authors" (d.authors.map fun l => PVal.list (l.map AuthorEntry.toPVal))
    ++ optEntry "classifiers" (d.classifiers.map fun l => PVal.list (l.map PVal.str))
    ++ optEntry "urls" (d.urls.map fun l => PVal.table (l.map fun p => (p.1, PVal.str p.2)))

/-- The parsed-data image of a well-formed descriptor. -/
def ProjectDescriptor.toData (d : ProjectDescriptor) : List (String × PVal) :=
  [("project", .table (projTable d))]

/-- The descriptor's urls as a parsed table. -/
def urlsList (d : ProjectDescriptor) : List (String × PVal) :=
  (d.urls.getD []).map fun p => (p.1, PVal.str p.2)

/-- The raw dict the derivation yields on a well-formed descriptor
(established by `deriveCoreMetadata_toData`). -/
def mdOfDescriptor (d : ProjectDescriptor) (v : String) : MetaDictV :=
  ⟨(d.name.map PVal.str).getD (.str "islpy-barvinok"),
    (d.version.map PVal.str).getD (.str v),
    (d.description.map PVal.str).getD (.str ""),
    pyOr ((pyLookup (urlsList d) "Homepage").getD .none)
      (pyOr ((pyLookup (urlsList d) "Home").getD .none) (.str "")),
    authorPVal (.list ((d.authors.getD []).map AuthorEntry.toPVal)),
    (d.requires_python.map PVal.str).getD (.str ""),
    pyOr (.list ((d.classifiers.getD []).map PVal.str)) (.list []),
    .table (urlsList d)⟩

/-- On a well-formed descriptor the derivation never raises and produces
exactly the field values of `mdOfDescriptor`. -/
theorem deriveCoreMetadata_toData (d : ProjectDescriptor) (v : String) :
    deriveCoreMetadata d.toData v = .ok (mdOfDescriptor d v) := by
  obtain ⟨n, ver, de, rp, au, cl, ur⟩ := d
  cases n <;> cases ver <;> cases de <;> cases rp <;> cases au <;> cases cl <;> cases ur <;>
    simp [deriveCoreMetadata, ProjectDescriptor.toData, projTable, optEntry,
      mdOfDescriptor, urlsList, pyGet, pyLookup, projUrlsPVal, Except.bind,
      Bind.bind, Except.pure, Pure.pure, Functor.map, Except.map]

/-! ### C4: the derivation on arbitrary parsed data -/

/-- Parsed data is well-shaped when its `project` value, if present, is a
mapping whose `urls` value, if present, is itself a mapping. -/
def WellShapedData (data : List (String × PVal)) : Prop :=
  ∀ p, pyLookup data "project" = some p →
    ∃ t, p = PVal.table t
      ∧ ∀ u, pyLookup t "urls" = some u → ∃ tu, u = PVal.table tu

/-- C4 as stated fails on the code: with the structured parser unavailable,
the fallback reader turns the descriptor line `urls = x` into a flat
string field, and the derivation then calls `.get` on that string —
an `AttributeError`, not a silent degradation.  (With the parser present
the same file is rejected by `tomllib` and falls back to the same path;
a structured parse yielding a non-mapping `urls` crashes identically.) -/
theorem c4_counterexample :
    fallbackProject (some ["[project]", "urls = x"]) = [("urls", "x")]
      ∧ readProjectCoreMetadata Option.none (some ["[project]", "urls = x"])
          = .error .attributeError :=
  ⟨rfl, rfl⟩

/-- C4 amended: deriving the metadata record never raises provided the
parsed `project` value, when present, is a mapping whose `urls` value,
when present, is also a mapping; reading an absent or unreadable
descriptor yields the empty descriptor, whose record carries the default
name, version `"0.0.0"` and empty remaining fields. -/
theorem c4_amended_never_raises (data : List (String × PVal)) (v : String)
    (hws : WellShapedData data) :
    (∃ m, deriveCoreMetadata data v = .ok m)
      ∧ readProjectCoreMetadata Option.none Option.none
          = .ok ⟨.str "islpy-barvinok", .str "0.0.0", .str "", .str "",
              .str "", .str "", .list [], .table []⟩ := by
  refine ⟨?_, by rfl⟩
  cases hp : pyLookup data "project" with
  | none =>
    simp [deriveCoreMetadata, hp, pyGet, pyLookup, projUrlsPVal, authorPVal,
      Except.bind, Bind.bind, Except.pure, Pure.pure, Functor.map, Except.map]
  | some p =>
    obtain ⟨t, rfl, hurls⟩ := hws p hp
    cases hu : pyLookup t "urls" with
    | none =>
      simp [deriveCoreMetadata, hp, hu, pyGet, projUrlsPVal, authorPVal,
        Except.bind, Bind.bind, Except.pure, Pure.pure, Functor.map, Except.map]
    | some u =>
      obtain ⟨tu, rfl⟩ := hurls u hu
      simp [deriveCoreMetadata, hp, hu, pyGet, projUrlsPVal, authorPVal,
        Except.bind, Bind.bind, Except.pure, Pure.pure, Functor.map, Except.map]

/-- Witness for the amended C4 at concrete well-shaped data. -/
theorem c4_amended_never_raises_witness :
    (∃ m, deriveCoreMetadata
        [("project", PVal.table [("name", PVal.str "x"),
          ("urls", PVal.table [("Homepage", PVal.str "h")])])] "0.0.0"
        = .ok m)
      ∧ readProjectCoreMetadata Option.none Option.none
          = .ok ⟨.str "islpy-barvinok", .str "0.0.0", .str "", .str "",
              .str "", .str "", .list [], .table []⟩ := by
  apply c4_amended_never_raises
  intro p hp
  have he : pyLookup [("project", PVal.table [("name", PVal.str "x"),
      ("urls", PVal.table [("Homepage", PVal.str "h")])])] "project"
      = some (PVal.table [("name", PVal.str "x"),
        ("urls", PVal.table [("Homepage", PVal.str "h")])]) := rfl
  rw [he] at hp
  refine ⟨_, (Option.some.inj hp).symm, ?_⟩
  intro u hu
  have he2 : pyLookup [("name", PVal.str "x"),
      ("urls", PVal.table [("Homepage", PVal.str "h")])] "urls"
      = some (PVal.table [("Homepage", PVal.str "h")]) := rfl
  rw [he2] at hu
  exact ⟨_, (Option.some.inj hu).symm⟩

/-! ### C7 and C8: field synthesis -/

/-- C7: when the descriptor file is entirely absent (so both the
structured parse and the fallback read see nothing), the synthesized
record carries the fixed default name and version `"0.0.0"`, and the
rendered field lines omit Summary, Home-page, Author and Requires-Python
and contain no Classifier or Project-URL lines: only the three mandatory
lines and the licence line remain (plus the description block when a
long description is supplied). -/
theorem c7_absent_descriptor_defaults :
    readProjectCoreMetadata Option.none Option.none
        = .ok (MetadataRecord.toDictV
            ⟨"islpy-barvinok", "0.0.0", "", "", "", "", [], []⟩)
      ∧ ∀ desc : String,
          pkgInfoLines ⟨"islpy-barvinok", "0.0.0", "", "", "", "", [], []⟩ desc
            = ["Metadata-Version: 2.1", "Name: islpy-barvinok",
                "Version: 0.0.0", "License-File: LICENSE"]
              ++ (if desc ≠ "" then
                    ["Description-Content-Type: text/markdown", "", desc]
                  else []) := by
  refine ⟨by rfl, ?_⟩
  intro desc
  simp [pkgInfoLines]

/-- §4.3 author extraction as the design document words it: only the first
entry of the authors sequence — its `name` sub-field (absent degrading to
empty) when the entry is a structured mapping, the entry itself when a
plain string. -/
def specAuthor : List AuthorEntry → String
  | [] => ""
  | AuthorEntry.table kvs :: _ => (envGet? kvs "name").getD ""
  | AuthorEntry.str s :: _ => s

/-- The home page exactly as C8 states it: the first present value among
the `Homepage` and `Home` keys, empty when neither key is present. -/
def claimHomePage (urls : List (String × String)) : String :=
  match envGet? urls "Homepage" with
  | some s => s
  | Option.none => (envGet? urls "Home").getD ""

/-- The home page as the code computes it: the first Python-truthy
(non-empty) value among the `Homepage` and `Home` keys, empty when
neither yields one. -/
def specHomePage (urls : List (String × String)) : String :=
  match envGet? urls "Homepage" with
  | some s => if s = "" then (envGet? urls "Home").getD "" else s
  | Option.none => (envGet? urls "Home").getD ""

theorem pyLookup_map_str (kvs : List (String × String)) (k : String) :
    pyLookup (kvs.map fun p => (p.1, PVal.str p.2)) k
      = (envGet? kvs k).map PVal.str := by
  induction kvs with
  | nil => rfl
  | cons p rest ih =>
    obtain ⟨a, b⟩ := p
    by_cases h : a = k <;> simp [pyLookup, envGet?, h, ih]

theorem authorPVal_eq_spec : ∀ entries : List AuthorEntry,
    authorPVal (.list (entries.map AuthorEntry.toPVal))
      = .str (specAuthor entries)
  | [] => rfl
  | AuthorEntry.str _ :: _ => rfl
  | AuthorEntry.table kvs :: rest => by
    have h1 : authorPVal
        (.list ((AuthorEntry.table kvs :: rest).map AuthorEntry.toPVal))
        = pyOr ((pyLookup (kvs.map fun p => (p.1, PVal.str p.2)) "name").getD
            .none) (.str "") := rfl
    rw [h1, pyLookup_map_str]
    cases he : envGet? kvs "name" with
    | none => simp [specAuthor, he, pyOr, pyTruthy]
    | some s =>
      by_cases hs : s = ""
      · subst hs
        simp [specAuthor, he, pyOr, pyTruthy]
      · simp [specAuthor, he, pyOr, pyTruthy, hs]

theorem homePagePVal_eq_spec (urls : List (String × String)) :
    pyOr ((pyLookup (urls.map fun p => (p.1, PVal.str p.2)) "Homepage").getD
        .none)
      (pyOr ((pyLookup (urls.map fun p => (p.1, PVal.str p.2)) "Home").getD
        .none) (.str ""))
      = .str (specHomePage urls) := by
  rw [pyLookup_map_str, pyLookup_map_str]
  cases h1 : envGet? urls "Homepage" with
  | none =>
    cases h2 : envGet? urls "Home" with
    | none => simp [specHomePage, h1, h2, pyOr, pyTruthy]
    | some t =>
      by_cases ht : t = ""
      · subst ht
        simp [specHomePage, h1, h2, pyOr, pyTruthy]
      · simp [specHomePage, h1, h2, pyOr, pyTruthy, ht]
  | some s =>
    by_cases hs : s = ""
    · subst hs
      cases h2 : envGet? urls "Home" with
      | none => simp [specHomePage, h1, h2, pyOr, pyTruthy]
      | some t =>
        by_cases ht : t = ""
        · subst ht
          simp [specHomePage, h1, h2, pyOr, pyTruthy]
        · simp [specHomePage, h1, h2, pyOr, pyTruthy, ht]
    · simp [specHomePage, h1, pyOr, pyTruthy, hs]

/-- C8 as stated fails on the code: with
`urls = Homepage ↦ "", Home ↦ "http://y"`, the `Homepage` key is present,
so the first present value is `""` — but Python's `or` skips the falsy
empty string and the code synthesizes `"http://y"`. -/
theorem c8_counterexample :
    (∃ m, deriveCoreMetadata
        (ProjectDescriptor.toData ⟨Option.none, Option.none, Option.none,
          Option.none, Option.none, Option.none,
          some [("Homepage", ""), ("Home", "http://y")]⟩) "0.0.0"
        = .ok m ∧ m.home_page = .str "http://y")
      ∧ claimHomePage [("Homepage", ""), ("Home", "http://y")] = ""
      ∧ ("http://y" : String) ≠ "" :=
  ⟨⟨_, rfl, rfl⟩, rfl, by decide⟩

/-- C8 amended: for every well-formed descriptor the synthesized author is
derived only from the first `authors` entry — its `name` sub-field when
the entry is a mapping, the entry itself when a plain string — and the
synthesized home page is the first non-empty (Python-truthy) value among
the `Homepage` and `Home` keys of the urls mapping, empty when neither
key yields one. -/
theorem c8_amended_author_home (d : ProjectDescriptor) (v : String) :
    ∃ m, deriveCoreMetadata d.toData v = .ok m
      ∧ m.author = .str (specAuthor (d.authors.getD []))
      ∧ m.home_page = .str (specHomePage (d.urls.getD [])) := by
  refine ⟨mdOfDescriptor d v, deriveCoreMetadata_toData d v, ?_, ?_⟩
  · exact authorPVal_eq_spec (d.authors.getD [])
  · exact homePagePVal_eq_spec (d.urls.getD [])

/-! ### C5: field order and the trailing terminator -/

theorem str_eq_empty_of_data_nil {s : String} (h : s.data = []) : s = "" := by
  cases s with
  | mk d =>
    simp only at h
    rw [h]

theorem data_ne_nil_of_ne_empty {s : String} (h : s ≠ "") : s.data ≠ [] :=
  fun hd => h (str_eq_empty_of_data_nil hd)

theorem strcat_data_ne_nil (a b : String) (ha : a.data ≠ []) :
    (a ++ b).data ≠ [] := by
  rw [String.data_append]
  intro h
  exact ha (List.append_eq_nil.mp h).1

theorem mem_of_getLast?_eq_some {α : Type} {l : List α} {a : α}
    (h : l.getLast? = some a) : a ∈ l := by
  cases l with
  | nil => simp at h
  | cons b t =>
    have hne : b :: t ≠ [] := by simp
    rw [List.getLast?_eq_getLast _ hne] at h
    exact (Option.some.inj h) ▸ List.getLast_mem hne

theorem getLast?_ne_lf_of_not_mem {l : List Char} (h : ¬ '\n' ∈ l) :
    l.getLast? ≠ some '\n' :=
  fun hc => h (mem_of_getLast?_eq_some hc)

/-- The last character of a joined document is the last character of its
last (non-empty) line. -/
theorem joinLines_getLast? :
    ∀ (ls : List String) (last : String), ls.getLast? = some last →
      last.data ≠ [] → (joinLines ls).data.getLast? = last.data.getLast?
  | [], last, h, _ => by simp at h
  | [l], last, h, _ => by
    have hl : l = last := by simpa using h
    subst hl
    rfl
  | l :: l' :: ls, last, h, hne => by
    have h' : (l' :: ls).getLast? = some last := by
      rw [← List.getLast?_cons_cons]
      exact h
    have ih := joinLines_getLast? (l' :: ls) last h' hne
    show ((l ++ "\n") ++ joinLines (l' :: ls)).data.getLast? = _
    rw [String.data_append]
    have hne2 : (joinLines (l' :: ls)).data ≠ [] := by
      intro h0
      rw [h0] at ih
      have : last.data = [] := List.getLast?_eq_none_iff.mp ih.symm
      exact hne this
    rw [List.getLast?_append_of_ne_nil _ hne2]
    exact ih

/-- `s` ends with exactly one line terminator. -/
def endsOneLF (s : String) : Prop :=
  s.data.getLast? = some '\n' ∧ s.data.dropLast.getLast? ≠ some '\n'

/-- A joined document with one appended newline ends with exactly one
terminator whenever its last line is non-empty and does not itself end
with one. -/
theorem endsOneLF_of_lastLine (ls : List String) (last : String)
    (hl : ls.getLast? = some last) (hne : last.data ≠ [])
    (hlf : last.data.getLast? ≠ some '\n') :
    endsOneLF (joinLines ls ++ "\n") := by
  have hdata : (joinLines ls ++ "\n").data = (joinLines ls).data ++ ['\n'] := by
    rw [String.data_append]
  constructor
  · rw [hdata]
    exact List.getLast?_concat _
  · rw [hdata, List.dropLast_concat, joinLines_getLast? ls last hl hne]
    exact hlf

/-- One field line, emitted only when `present`. -/
def optLine (l : String) (present : Prop) [Decidable present] : List String :=
  if present then [l] else []

/-- §4.3 `render` as the design document words it: the fixed field order —
Metadata-Version, Name, Version, Summary, Home-page, Author,
Requires-Python, License-File, Classifier lines, Project-URL lines, then
the description block — with Name and Version always emitted and every
other field omitted when empty. -/
def specRenderLines (m : MetadataRecord) (desc : String) : List String :=
  ["Metadata-Version: 2.1"]
    ++ ["Name: " ++ m.name]
    ++ ["Version: " ++ m.version]
    ++ optLine ("Summary: " ++ m.summary) (m.summary ≠ "")
    ++ optLine ("Home-page: " ++ m.home_page) (m.home_page ≠ "")
    ++ optLine ("Author: " ++ m.author) (m.author ≠ "")
    ++ optLine ("Requires-Python: " ++ m.requires_python)
        (m.requires_python ≠ "")
    ++ ["License-File: LICENSE"]
    ++ m.classifiers.map (fun c => "Classifier: " ++ c)
    ++ m.project_urls.map (fun p => "Project-URL: " ++ p.1 ++ ", " ++ p.2)
    ++ (if desc ≠ "" then
          ["Description-Content-Type: text/markdown", "", desc]
        else [])

/-- The last rendered field line is non-empty and free of a trailing
newline, under the stated hygiene of classifier, URL and description
values. -/
theorem pkgInfoLines_last (m : MetadataRecord) (desc : String)
    (hcl : ∀ c ∈ m.classifiers, ¬ '\n' ∈ c.data)
    (hurl : ∀ p ∈ m.project_urls, ¬ '\n' ∈ p.1.data ∧ ¬ '\n' ∈ p.2.data)
    (hdesc : desc = "" ∨ desc.data.getLast? ≠ some '\n') :
    ∃ last, (pkgInfoLines m desc).getLast? = some last
      ∧ last.data ≠ [] ∧ last.data.getLast? ≠ some '\n' := by
  by_cases hd : desc = ""
  · subst hd
    by_cases hU : m.project_urls = []
    · by_cases hC : m.classifiers = []
      · refine ⟨"License-File: LICENSE", ?_, by decide, by decide⟩
        rw [pkgInfoLines]
        have hblk0 : (if ("" : String) ≠ "" then
            ["Description-Content-Type: text/markdown", "", ("" : String)]
            else []) = ([] : List String) := by simp
        rw [hblk0, hU, hC]
        simp only [List.map_nil, List.append_nil]
        exact List.getLast?_concat _
      · have hmap : m.classifiers.map (fun c => "Classifier: " ++ c) ≠ [] := by
          simpa using hC
        refine ⟨"Classifier: " ++ m.classifiers.getLast hC, ?_, ?_, ?_⟩
        · rw [pkgInfoLines]
          simp only [hU, List.map_nil, List.append_nil, ne_eq,
            not_true_eq_false, if_false, List.append_nil]
          rw [List.getLast?_append_of_ne_nil _ hmap, List.getLast?_map,
            List.getLast?_eq_getLast _ hC]
          rfl
        · exact strcat_data_ne_nil _ _ (by decide)
        · apply getLast?_ne_lf_of_not_mem
          rw [String.data_append]
          intro hmem
          rcases List.mem_append.mp hmem with h1 | h2
          · exact absurd h1 (by decide)
          · exact hcl _ (List.getLast_mem hC) h2
    · have hmap : m.project_urls.map
          (fun p => "Project-URL: " ++ p.1 ++ ", " ++ p.2) ≠ [] := by
        simpa using hU
      have hpmem := List.getLast_mem hU
      refine ⟨"Project-URL: " ++ (m.project_urls.getLast hU).1 ++ ", "
          ++ (m.project_urls.getLast hU).2, ?_, ?_, ?_⟩
      · rw [pkgInfoLines]
        simp only [ne_eq, not_true_eq_false, if_false, List.append_nil]
        rw [List.getLast?_append_of_ne_nil _ hmap, List.getLast?_map,
          List.getLast?_eq_getLast _ hU]
        rfl
      · exact strcat_data_ne_nil _ _
          (strcat_data_ne_nil _ _ (strcat_data_ne_nil _ _ (by decide)))
      · apply getLast?_ne_lf_of_not_mem
        rw [String.data_append, String.data_append, String.data_append]
        intro hmem
        rcases List.mem_append.mp hmem with h1 | h2
        · rcases List.mem_append.mp h1 with h3 | h4
          · rcases List.mem_append.mp h3 with h5 | h6
            · exact absurd h5 (by decide)
            · exact (hurl _ hpmem).1 h6
          · exact absurd h4 (by decide)
        · exact (hurl _ hpmem).2 h2
  · refine ⟨desc, ?_, data_ne_nil_of_ne_empty hd, ?_⟩
    · rw [pkgInfoLines]
      have hblk : (if desc ≠ "" then
          ["Description-Content-Type: text/markdown", "", desc]
          else []) = ["Description-Content-Type: text/markdown", "", desc] := by
        simp [hd]
      rw [hblk, List.getLast?_append_of_ne_nil _ (by simp)]
      rfl
    · rcases hdesc with h | h
      · exact absurd h hd
      · exact h

/-- C5 as stated fails on the code: when the long description itself ends
with a line terminator (as README files typically do), the rendered
document ends with two terminators, not exactly one. -/
theorem c5_counterexample :
    ¬ endsOneLF (pkgInfoContent ⟨"foo", "1.2.3", "", "", "", "", [], []⟩
      "a\n") := by
  intro h
  exact h.2 (by decide)

/-- C5 amended: for every metadata record whose classifier and URL values
contain no line terminator, the rendered field lines are exactly the
spec's fixed order with every empty field other than Name and Version
omitted, the `License-File: LICENSE` line is always emitted, and the
document ends with exactly one trailing line terminator provided the
description block is empty or does not itself end with one (a
description ending in a terminator yields two — see the
counterexample). -/
theorem c5_render_fixed_order (m : MetadataRecord) (desc : String)
    (hcl : ∀ c ∈ m.classifiers, ¬ '\n' ∈ c.data)
    (hurl : ∀ p ∈ m.project_urls, ¬ '\n' ∈ p.1.data ∧ ¬ '\n' ∈ p.2.data)
    (hdesc : desc = "" ∨ desc.data.getLast? ≠ some '\n') :
    pkgInfoLines m desc = specRenderLines m desc
      ∧ "License-File: LICENSE" ∈ pkgInfoLines m desc
      ∧ endsOneLF (pkgInfoContent m desc) := by
  refine ⟨?_, ?_, ?_⟩
  · simp [pkgInfoLines, specRenderLines, optLine]
  · simp [pkgInfoLines]
  · obtain ⟨last, h1, h2, h3⟩ := pkgInfoLines_last m desc hcl hurl hdesc
    exact endsOneLF_of_lastLine _ last h1 h2 h3

/-- Witness for the amended C5 at a concrete record. -/
theorem c5_render_fixed_order_witness :
    pkgInfoLines ⟨"foo", "1.0", "sum", "", "", "", ["Topic :: A"],
        [("Home", "http://x")]⟩ "hello"
      = specRenderLines ⟨"foo", "1.0", "sum", "", "", "", ["Topic :: A"],
        [("Home", "http://x")]⟩ "hello"
      ∧ "License-File: LICENSE" ∈ pkgInfoLines ⟨"foo", "1.0", "sum", "", "",
        "", ["Topic :: A"], [("Home", "http://x")]⟩ "hello"
      ∧ endsOneLF (pkgInfoContent ⟨"foo", "1.0", "sum", "", "", "",
        ["Topic :: A"], [("Home", "http://x")]⟩ "hello") :=
  c5_render_fixed_order
    ⟨"foo", "1.0", "sum", "", "", "", ["Topic :: A"], [("Home", "http://x")]⟩
    "hello" (by decide) (by decide) (Or.inr (by decide))

/-! ### C6: line structure of the rendered document -/

theorem splitLines_ne_nil : ∀ xs : List Char, splitLines xs ≠ []
  | [] => by simp [splitLines]
  | c :: rest => by
    unfold splitLines
    by_cases h : c = '\n'
    · simp [h]
    · simp only [h, if_false]
      cases hs : splitLines rest <;> simp

theorem splitLines_append_lf : ∀ (xs ys : List Char),
    splitLines (xs ++ '\n' :: ys) = splitLines xs ++ splitLines ys
  | [], ys => by simp [splitLines]
  | c :: xs, ys => by
    by_cases h : c = '\n'
    · subst h
      show splitLines ('\n' :: (xs ++ '\n' :: ys)) = _
      rw [show splitLines ('\n' :: (xs ++ '\n' :: ys))
          = [] :: splitLines (xs ++ '\n' :: ys) from by simp [splitLines]]
      rw [show splitLines ('\n' :: xs) = [] :: splitLines xs from by
        simp [splitLines]]
      rw [splitLines_append_lf xs ys]
      rfl
    · show splitLines (c :: (xs ++ '\n' :: ys)) = _
      cases hxs : splitLines xs with
      | nil => exact absurd hxs (splitLines_ne_nil xs)
      | cons l ls =>
        rw [show splitLines (c :: (xs ++ '\n' :: ys))
            = (match splitLines (xs ++ '\n' :: ys) with
               | [] => [[c]]
               | l :: ls => (c :: l) :: ls) from by simp [splitLines, h]]
        rw [splitLines_append_lf xs ys, hxs]
        rw [show splitLines (c :: xs)
            = (match splitLines xs with
               | [] => [[c]]
               | l :: ls => (c :: l) :: ls) from by simp [splitLines, h]]
        rw [hxs]
        rfl

theorem splitLines_no_lf : ∀ xs : List Char, ¬ '\n' ∈ xs → splitLines xs = [xs]
  | [], _ => rfl
  | c :: xs, h => by
    have hc : ¬ c = '\n' := fun hc => h (by simp [hc])
    have hxs : ¬ '\n' ∈ xs := fun hm => h (by simp [hm])
    rw [show splitLines (c :: xs)
        = (match splitLines xs with
           | [] => [[c]]
           | l :: ls => (c :: l) :: ls) from by simp [splitLines, hc]]
    rw [splitLines_no_lf xs hxs]

/-- A string line without terminators splits into itself. -/
theorem splitLines_single {s : String} (h : ¬ '\n' ∈ s.data) :
    splitLines s.data = [s.data] :=
  splitLines_no_lf s.data h

theorem splitLines_joinLines : ∀ ls : List String, ls ≠ [] →
    splitLines (joinLines ls).data
      = (ls.map fun l => splitLines l.data).flatten
  | [], h => absurd rfl h
  | [l], _ => by simp [joinLines]
  | l :: l' :: ls, _ => by
    show splitLines ((l ++ "\n") ++ joinLines (l' :: ls)).data = _
    rw [String.data_append, String.data_append]
    rw [show ("\n" : String).data = ['\n'] from rfl]
    rw [List.append_assoc, List.singleton_append, splitLines_append_lf]
    rw [splitLines_joinLines (l' :: ls) (by simp)]
    rfl

theorem pkgInfoLines_ne_nil (m : MetadataRecord) (desc : String) :
    pkgInfoLines m desc ≠ [] := by
  unfold pkgInfoLines
  simp

/-- The lines of the rendered document are the per-field lines, each split
at its own newlines, followed by the empty final segment the trailing
terminator produces. -/
theorem docLines_pkgInfoContent (m : MetadataRecord) (desc : String) :
    docLines (pkgInfoContent m desc)
      = ((pkgInfoLines m desc).map fun l => splitLines l.data).flatten
        ++ [[]] := by
  unfold docLines pkgInfoContent
  rw [String.data_append]
  rw [show ("\n" : String).data = ['\n'] from rfl]
  rw [show ((joinLines (pkgInfoLines m desc)).data ++ ['\n'])
      = ((joinLines (pkgInfoLines m desc)).data ++ '\n' :: []) from rfl]
  rw [splitLines_append_lf]
  rw [splitLines_joinLines _ (pkgInfoLines_ne_nil m desc)]
  rfl

theorem not_prefix_of_isPrefixOf_false {p q : List Char}
    (h : p.isPrefixOf q = false) : ¬ p <+: q := by
  intro hc
  rw [← List.isPrefixOf_iff_prefix] at hc
  rw [h] at hc
  exact Bool.false_ne_true hc

theorem isPrefixOf_extend {p q : List Char} (x : List Char)
    (h : p.isPrefixOf q = true) : p.isPrefixOf (q ++ x) = true := by
  rw [List.isPrefixOf_iff_prefix] at h ⊢
  exact h.trans (List.prefix_append q x)

theorem not_isPrefixOf_append {p q : List Char} (x : List Char)
    (h1 : ¬ p <+: q) (h2 : ¬ q <+: p) : p.isPrefixOf (q ++ x) = false := by
  rw [← Bool.not_eq_true, List.isPrefixOf_iff_prefix]
  intro h
  rcases List.prefix_or_prefix_of_prefix h (List.prefix_append q x) with h' | h'
  · exact h1 h'
  · exact h2 h'

/-! ### C6: block counting lemmas -/

theorem countP_single_line (p : List Char → Bool) {s : String}
    (hnl : ¬ '\n' ∈ s.data) :
    (splitLines s.data).countP p = if p s.data then 1 else 0 := by
  rw [splitLines_single hnl]
  simp [List.countP_cons]

theorem countP_opt_block (p : List Char → Bool) (cond : Prop) [Decidable cond]
    (l : String) (hnl : ¬ '\n' ∈ l.data) (hp : p l.data = false) :
    ((((if cond then [l] else []) : List String).map
      fun t => splitLines t.data).flatten).countP p = 0 := by
  split
  · rw [List.map_cons, List.map_nil, List.flatten_cons, List.flatten_nil,
      List.append_nil, splitLines_single hnl]
    simp [List.countP_cons, hp]
  · rfl

theorem filter_opt_block (p : List Char → Bool) (cond : Prop) [Decidable cond]
    (l : String) (hnl : ¬ '\n' ∈ l.data) (hp : p l.data = false) :
    ((((if cond then [l] else []) : List String).map
      fun t => splitLines t.data).flatten).filter p = [] := by
  split
  · rw [List.map_cons, List.map_nil, List.flatten_cons, List.flatten_nil,
      List.append_nil, splitLines_single hnl]
    simp [List.filter_cons, hp]
  · rfl

theorem countP_map_block_zero {β : Type} (p : List Char → Bool)
    (f : β → String) :
    ∀ l : List β, (∀ b ∈ l, ¬ '\n' ∈ (f b).data) →
      (∀ b ∈ l, p ((f b).data) = false) →
      (((l.map fun b => splitLines (f b).data).flatten).countP p) = 0
  | [], _, _ => rfl
  | b :: bs, hnl, hp => by
    rw [List.map_cons, List.flatten_cons, List.countP_append,
      splitLines_single (hnl b (by simp))]
    rw [countP_map_block_zero p f bs (fun x hx => hnl x (by simp [hx]))
      (fun x hx => hp x (by simp [hx]))]
    simp [List.countP_cons, hp b (by simp)]

theorem filter_map_block_zero {β : Type} (p : List Char → Bool)
    (f : β → String) :
    ∀ l : List β, (∀ b ∈ l, ¬ '\n' ∈ (f b).data) →
      (∀ b ∈ l, p ((f b).data) = false) →
      (((l.map fun b => splitLines (f b).data).flatten).filter p) = []
  | [], _, _ => rfl
  | b :: bs, hnl, hp => by
    rw [List.map_cons, List.flatten_cons, List.filter_append,
      splitLines_single (hnl b (by simp))]
    rw [filter_map_block_zero p f bs (fun x hx => hnl x (by simp [hx]))
      (fun x hx => hp x (by simp [hx]))]
    simp [List.filter_cons, hp b (by simp)]

/-- A classifier value never contains a newline when the record is
hygienic, so its rendered line is one document line. -/
theorem classifier_line_no_lf {c : String} (hc : ¬ '\n' ∈ c.data) :
    ¬ '\n' ∈ ("Classifier: " ++ c).data := by
  rw [String.data_append]
  intro hm
  rcases List.mem_append.mp hm with h1 | h2
  · exact absurd h1 (by decide)
  · exact hc h2

theorem url_line_no_lf {p : String × String} (h1 : ¬ '\n' ∈ p.1.data)
    (h2 : ¬ '\n' ∈ p.2.data) :
    ¬ '\n' ∈ ("Project-URL: " ++ p.1 ++ ", " ++ p.2).data := by
  rw [String.data_append, String.data_append, String.data_append]
  intro hm
  rcases List.mem_append.mp hm with ha | hb
  · rcases List.mem_append.mp ha with hc | hd
    · rcases List.mem_append.mp hc with he | hf
      · exact absurd he (by decide)
      · exact h1 hf
    · exact absurd hd (by decide)
  · exact h2 hb

/-- The `Classifier:`-prefixed document lines are exactly the rendered
classifier lines, in order. -/
theorem filter_classifier_block :
    ∀ cs : List String, (∀ c ∈ cs, ¬ '\n' ∈ c.data) →
      (((cs.map fun c => splitLines ("Classifier: " ++ c).data).flatten).filter
        fun l => "Classifier:".data.isPrefixOf l)
        = cs.map fun c => ("Classifier: " ++ c).data
  | [], _ => rfl
  | c :: cst, h => by
    rw [List.map_cons, List.flatten_cons, List.filter_append,
      splitLines_single (classifier_line_no_lf (h c (by simp)))]
    rw [filter_classifier_block cst (fun x hx => h x (by simp [hx]))]
    have hpref : ("Classifier:".data.isPrefixOf ("Classifier: " ++ c).data)
        = true := by
      rw [String.data_append]
      exact isPrefixOf_extend _ (by decide)
    simp [List.filter_cons, hpref]

theorem prefixed_line_no_lf {pre s : String} (hpre : ¬ '\n' ∈ pre.data)
    (hs : ¬ '\n' ∈ s.data) : ¬ '\n' ∈ (pre ++ s).data := by
  rw [String.data_append]
  intro hm
  rcases List.mem_append.mp hm with h | h
  · exact hpre h
  · exact hs h

theorem countP_desc_block (p : List Char → Bool) (desc : String)
    (hdct : p ("Description-Content-Type: text/markdown" : String).data = false)
    (hnil : p [] = false)
    (hdesc : ∀ l ∈ splitLines desc.data, p l = false) :
    ((((if desc ≠ "" then
        ["Description-Content-Type: text/markdown", "", desc]
        else []) : List String).map fun t => splitLines t.data).flatten).countP
      p = 0 := by
  split
  · rw [List.map_cons, List.map_cons, List.map_cons, List.map_nil,
      List.flatten_cons, List.flatten_cons, List.flatten_cons,
      List.flatten_nil, List.append_nil, List.countP_append,
      List.countP_append]
    rw [splitLines_single (show
      ¬ '\n' ∈ ("Description-Content-Type: text/markdown" : String).data
      from by decide)]
    have h1 : (splitLines ("" : String).data).countP p = 0 := by
      rw [show ("" : String).data = [] from rfl]
      simp [splitLines, List.countP_cons, hnil]
    have h2 : (splitLines desc.data).countP p = 0 := by
      rw [List.countP_eq_zero]
      intro a ha
      simp [hdesc a ha]
    rw [h1, h2]
    simp [List.countP_cons, hdct]
  · rfl

theorem filter_desc_block (p : List Char → Bool) (desc : String)
    (hdct : p ("Description-Content-Type: text/markdown" : String).data = false)
    (hnil : p [] = false)
    (hdesc : ∀ l ∈ splitLines desc.data, p l = false) :
    ((((if desc ≠ "" then
        ["Description-Content-Type: text/markdown", "", desc]
        else []) : List String).map fun t => splitLines t.data).flatten).filter
      p = [] := by
  split
  · rw [List.map_cons, List.map_cons, List.map_cons, List.map_nil,
      List.flatten_cons, List.flatten_cons, List.flatten_cons,
      List.flatten_nil, List.append_nil, List.filter_append,
      List.filter_append]
    rw [splitLines_single (show
      ¬ '\n' ∈ ("Description-Content-Type: text/markdown" : String).data
      from by decide)]
    have h1 : (splitLines ("" : String).data).filter p = [] := by
      rw [show ("" : String).data = [] from rfl]
      simp [splitLines, List.filter_cons, hnil]
    have h2 : (splitLines desc.data).filter p = [] := by
      rw [List.filter_eq_nil_iff]
      intro a ha
      simp [hdesc a ha]
    rw [h1, h2]
    simp [List.filter_cons, hdct]
  · rfl

theorem line_mismatch {p q : List Char} (x : List Char)
    (h1 : p.isPrefixOf q = false) (h2 : q.isPrefixOf p = false) :
    p.isPrefixOf (q ++ x) = false :=
  not_isPrefixOf_append x (not_prefix_of_isPrefixOf_false h1)
    (not_prefix_of_isPrefixOf_false h2)

/-- Line statistics of a rendered document over a hygienic record: exactly
one `Name:` line, exactly one `Version:` line, and the `Classifier:`
lines are exactly the rendered classifiers in order. -/
theorem docLines_counts (m : MetadataRecord) (desc : String)
    (hname : ¬ '\n' ∈ m.name.data) (hver : ¬ '\n' ∈ m.version.data)
    (hsum : ¬ '\n' ∈ m.summary.data) (hhp : ¬ '\n' ∈ m.home_page.data)
    (hau : ¬ '\n' ∈ m.author.data) (hrp : ¬ '\n' ∈ m.requires_python.data)
    (hcl : ∀ c ∈ m.classifiers, ¬ '\n' ∈ c.data)
    (hurl : ∀ p ∈ m.project_urls, ¬ '\n' ∈ p.1.data ∧ ¬ '\n' ∈ p.2.data)
    (hdesc : ∀ l ∈ splitLines desc.data,
      (("Name:" : String).data.isPrefixOf l) = false
        ∧ (("Version:" : String).data.isPrefixOf l) = false
        ∧ (("Classifier:" : String).data.isPrefixOf l) = false) :
    (docLines (pkgInfoContent m desc)).countP
        (fun l => ("Name:" : String).data.isPrefixOf l) = 1
      ∧ (docLines (pkgInfoContent m desc)).countP
        (fun l => ("Version:" : String).data.isPrefixOf l) = 1
      ∧ (docLines (pkgInfoContent m desc)).filter
        (fun l => ("Classifier:" : String).data.isPrefixOf l)
        = m.classifiers.map (fun c => ("Classifier: " ++ c).data) := by
  have hNameLine : ¬ '\n' ∈ ("Name: " ++ m.name).data :=
    prefixed_line_no_lf (by decide) hname
  have hVerLine : ¬ '\n' ∈ ("Version: " ++ m.version).data :=
    prefixed_line_no_lf (by decide) hver
  have hSumLine : ¬ '\n' ∈ ("Summary: " ++ m.summary).data :=
    prefixed_line_no_lf (by decide) hsum
  have hHpLine : ¬ '\n' ∈ ("Home-page: " ++ m.home_page).data :=
    prefixed_line_no_lf (by decide) hhp
  have hAuLine : ¬ '\n' ∈ ("Author: " ++ m.author).data :=
    prefixed_line_no_lf (by decide) hau
  have hRpLine : ¬ '\n' ∈ ("Requires-Python: " ++ m.requires_python).data :=
    prefixed_line_no_lf (by decide) hrp
  have hMVnl : ¬ '\n' ∈ ("Metadata-Version: 2.1" : String).data := by decide
  have hLicnl : ¬ '\n' ∈ ("License-File: LICENSE" : String).data := by decide
  refine ⟨?_, ?_, ?_⟩
  · rw [List.countP_eq_length_filter, docLines_pkgInfoContent, pkgInfoLines]
    simp only [List.map_append, List.flatten_append, List.filter_append,
      List.map_cons, List.map_nil, List.flatten_cons, List.flatten_nil,
      List.append_nil, List.map_map, Function.comp_def]
    rw [splitLines_single hMVnl, splitLines_single hNameLine,
      splitLines_single hVerLine, splitLines_single hLicnl]
    rw [filter_opt_block _ _ _ hSumLine (by
      rw [String.data_append]
      exact line_mismatch _ (by decide) (by decide))]
    rw [filter_opt_block _ _ _ hHpLine (by
      rw [String.data_append]
      exact line_mismatch _ (by decide) (by decide))]
    rw [filter_opt_block _ _ _ hAuLine (by
      rw [String.data_append]
      exact line_mismatch _ (by decide) (by decide))]
    rw [filter_opt_block _ _ _ hRpLine (by
      rw [String.data_append]
      exact line_mismatch _ (by decide) (by decide))]
    rw [filter_map_block_zero _ _ m.classifiers
      (fun c hc => classifier_line_no_lf (hcl c hc))
      (fun c _ => by
        rw [String.data_append]
        exact line_mismatch _ (by decide) (by decide))]
    rw [filter_map_block_zero _ _ m.project_urls
      (fun q hq => url_line_no_lf (hurl q hq).1 (hurl q hq).2)
      (fun q _ => by
        rw [String.data_append, String.data_append, String.data_append,
          List.append_assoc, List.append_assoc]
        exact line_mismatch _ (by decide) (by decide))]
    rw [filter_desc_block _ desc (by decide) (by decide)
      (fun l hl => (hdesc l hl).1)]
    have hpname : (("Name:" : String).data.isPrefixOf
        ("Name: " ++ m.name).data) = true := by
      rw [String.data_append]
      exact isPrefixOf_extend _ (by decide)
    have hpver : (("Name:" : String).data.isPrefixOf
        ("Version: " ++ m.version).data) = false := by
      rw [String.data_append]
      exact line_mismatch _ (by decide) (by decide)
    simp [List.filter_cons, hpname, hpver]
  · rw [List.countP_eq_length_filter, docLines_pkgInfoContent, pkgInfoLines]
    simp only [List.map_append, List.flatten_append, List.filter_append,
      List.map_cons, List.map_nil, List.flatten_cons, List.flatten_nil,
      List.append_nil, List.map_map, Function.comp_def]
    rw [splitLines_single hMVnl, splitLines_single hNameLine,
      splitLines_single hVerLine, splitLines_single hLicnl]
    rw [filter_opt_block _ _ _ hSumLine (by
      rw [String.data_append]
      exact line_mismatch _ (by decide) (by decide))]
    rw [filter_opt_block _ _ _ hHpLine (by
      rw [String.data_append]
      exact line_mismatch _ (by decide) (by decide))]
    rw [filter_opt_block _ _ _ hAuLine (by
      rw [String.data_append]
      exact line_mismatch _ (by decide) (by decide))]
    rw [filter_opt_block _ _ _ hRpLine (by
      rw [String.data_append]
      exact line_mismatch _ (by decide) (by decide))]
    rw [filter_map_block_zero _ _ m.classifiers
      (fun c hc => classifier_line_no_lf (hcl c hc))
      (fun c _ => by
        rw [String.data_append]
        exact line_mismatch _ (by decide) (by decide))]
    rw [filter_map_block_zero _ _ m.project_urls
      (fun q hq => url_line_no_lf (hurl q hq).1 (hurl q hq).2)
      (fun q _ => by
        rw [String.data_append, String.data_append, String.data_append,
          List.append_assoc, List.append_assoc]
        exact line_mismatch _ (by decide) (by decide))]
    rw [filter_desc_block _ desc (by decide) (by decide)
      (fun l hl => (hdesc l hl).2.1)]
    have hpname : (("Version:" : String).data.isPrefixOf
        ("Name: " ++ m.name).data) = false := by
      rw [String.data_append]
      exact line_mismatch _ (by decide) (by decide)
    have hpver : (("Version:" : String).data.isPrefixOf
        ("Version: " ++ m.version).data) = true := by
      rw [String.data_append]
      exact isPrefixOf_extend _ (by decide)
    simp [List.filter_cons, hpname, hpver]
  · rw [docLines_pkgInfoContent, pkgInfoLines]
    simp only [List.map_append, List.flatten_append, List.filter_append,
      List.map_cons, List.map_nil, List.flatten_cons, List.flatten_nil,
      List.append_nil, List.map_map, Function.comp_def]
    rw [splitLines_single hMVnl, splitLines_single hNameLine,
      splitLines_single hVerLine, splitLines_single hLicnl]
    rw [filter_opt_block _ _ _ hSumLine (by
      rw [String.data_append]
      exact line_mismatch _ (by decide) (by decide))]
    rw [filter_opt_block _ _ _ hHpLine (by
      rw [String.data_append]
      exact line_mismatch _ (by decide) (by decide))]
    rw [filter_opt_block _ _ _ hAuLine (by
      rw [String.data_append]
      exact line_mismatch _ (by decide) (by decide))]
    rw [filter_opt_block _ _ _ hRpLine (by
      rw [String.data_append]
      exact line_mismatch _ (by decide) (by decide))]
    rw [filter_classifier_block m.classifiers hcl]
    rw [filter_map_block_zero _ _ m.project_urls
      (fun q hq => url_line_no_lf (hurl q hq).1 (hurl q hq).2)
      (fun q _ => by
        rw [String.data_append, String.data_append, String.data_append,
          List.append_assoc, List.append_assoc]
        exact line_mismatch _ (by decide) (by decide))]
    rw [filter_desc_block _ desc (by decide) (by decide)
      (fun l hl => (hdesc l hl).2.2)]
    have hpname : (("Classifier:" : String).data.isPrefixOf
        ("Name: " ++ m.name).data) = false := by
      rw [String.data_append]
      exact line_mismatch _ (by decide) (by decide)
    have hpver : (("Classifier:" : String).data.isPrefixOf
        ("Version: " ++ m.version).data) = false := by
      rw [String.data_append]
      exact line_mismatch _ (by decide) (by decide)
    simp [List.filter_cons, hpname, hpver]

/-- The typed record a well-formed descriptor synthesizes to. -/
def recordOfDescriptor (d : ProjectDescriptor) (v : String) : MetadataRecord :=
  ⟨d.name.getD "islpy-barvinok", d.version.getD v, d.description.getD "",
    specHomePage (d.urls.getD []), specAuthor (d.authors.getD []),
    d.requires_python.getD "", d.classifiers.getD [], d.urls.getD []⟩

/-- The raw dict of a well-formed descriptor is the typed record. -/
theorem toDictV_recordOf (d : ProjectDescriptor) (v : String) :
    (recordOfDescriptor d v).toDictV = mdOfDescriptor d v := by
  simp only [MetadataRecord.toDictV, recordOfDescriptor, mdOfDescriptor,
    MetaDictV.mk.injEq]
  refine ⟨?_, ?_, ?_, ?_, ?_, ?_, ?_, rfl⟩
  · cases d.name <;> rfl
  · cases d.version <;> rfl
  · cases d.description <;> rfl
  · exact (homePagePVal_eq_spec (d.urls.getD [])).symm
  · exact (authorPVal_eq_spec (d.authors.getD [])).symm
  · cases d.requires_python <;> rfl
  · by_cases h : (d.classifiers.getD []) = []
    · rw [h]
      rfl
    · have hne : (d.classifiers.getD []).map PVal.str ≠ [] := by simpa using h
      simp [pyOr, pyTruthy, hne]

/-- C6 as stated fails on the code: a readme whose text begins a line with
`Name:` is copied verbatim into the document, which then contains two
`Name:` lines, not exactly one. -/
theorem c6_counterexample :
    deriveCoreMetadata (ProjectDescriptor.toData ⟨some "foo", some "1.2.3",
        Option.none, Option.none, Option.none, Option.none, Option.none⟩)
        "0.0.0"
        = .ok (MetadataRecord.toDictV ⟨"foo", "1.2.3", "", "", "", "", [], []⟩)
      ∧ (docLines (pkgInfoContent ⟨"foo", "1.2.3", "", "", "", "", [], []⟩
          "Name: evil")).countP
          (fun l => ("Name:" : String).data.isPrefixOf l) = 2 :=
  ⟨by rfl, by decide⟩

/-- C6 amended: for every well-formed descriptor and readme text whose
lines do not begin with `Name:`, `Version:` or `Classifier:`, and whose
synthesized field values contain no line terminator, the rendered
document has exactly one line beginning `Name:`, exactly one beginning
`Version:`, and its `Classifier:` lines are exactly the descriptor's
classifiers in their original order.  (A readme line beginning with one
of the prefixes enters the document verbatim and breaks the count — see
the counterexample.) -/
theorem c6_amended_line_counts (d : ProjectDescriptor) (v desc : String)
    (hname : ¬ '\n' ∈ (recordOfDescriptor d v).name.data)
    (hver : ¬ '\n' ∈ (recordOfDescriptor d v).version.data)
    (hsum : ¬ '\n' ∈ (recordOfDescriptor d v).summary.data)
    (hhp : ¬ '\n' ∈ (recordOfDescriptor d v).home_page.data)
    (hau : ¬ '\n' ∈ (recordOfDescriptor d v).author.data)
    (hrp : ¬ '\n' ∈ (recordOfDescriptor d v).requires_python.data)
    (hcl : ∀ c ∈ d.classifiers.getD [], ¬ '\n' ∈ c.data)
    (hurl : ∀ p ∈ d.urls.getD [], ¬ '\n' ∈ p.1.data ∧ ¬ '\n' ∈ p.2.data)
    (hdesc : ∀ l ∈ splitLines desc.data,
      (("Name:" : String).data.isPrefixOf l) = false
        ∧ (("Version:" : String).data.isPrefixOf l) = false
        ∧ (("Classifier:" : String).data.isPrefixOf l) = false) :
    deriveCoreMetadata d.toData v = .ok ((recordOfDescriptor d v).toDictV)
      ∧ (recordOfDescriptor d v).classifiers = d.classifiers.getD []
      ∧ (docLines (pkgInfoContent (recordOfDescriptor d v) desc)).countP
          (fun l => ("Name:" : String).data.isPrefixOf l) = 1
      ∧ (docLines (pkgInfoContent (recordOfDescriptor d v) desc)).countP
          (fun l => ("Version:" : String).data.isPrefixOf l) = 1
      ∧ (docLines (pkgInfoContent (recordOfDescriptor d v) desc)).filter
          (fun l => ("Classifier:" : String).data.isPrefixOf l)
        = (d.classifiers.getD []).map (fun c => ("Classifier: " ++ c).data) := by
  obtain ⟨h1, h2, h3⟩ := docLines_counts (recordOfDescriptor d v) desc
    hname hver hsum hhp hau hrp hcl hurl hdesc
  refine ⟨?_, rfl, h1, h2, h3⟩
  rw [deriveCoreMetadata_toData, toDictV_recordOf]

/-- Witness for the amended C6 at a concrete descriptor with two
classifiers and an ordinary readme. -/
theorem c6_amended_line_counts_witness :
    deriveCoreMetadata (ProjectDescriptor.toData ⟨some "foo", some "1.0",
        Option.none, Option.none, Option.none, some ["A", "B"],
        Option.none⟩) "0.0.0"
        = .ok ((recordOfDescriptor ⟨some "foo", some "1.0", Option.none,
            Option.none, Option.none, some ["A", "B"], Option.none⟩
            "0.0.0").toDictV)
      ∧ (recordOfDescriptor ⟨some "foo", some "1.0", Option.none,
          Option.none, Option.none, some ["A", "B"], Option.none⟩
          "0.0.0").classifiers = ["A", "B"]
      ∧ (docLines (pkgInfoContent (recordOfDescriptor ⟨some "foo",
          some "1.0", Option.none, Option.none, Option.none,
          some ["A", "B"], Option.none⟩ "0.0.0") "hello readme")).countP
          (fun l => ("Name:" : String).data.isPrefixOf l) = 1
      ∧ (docLines (pkgInfoContent (recordOfDescriptor ⟨some "foo",
          some "1.0", Option.none, Option.none, Option.none,
          some ["A", "B"], Option.none⟩ "0.0.0") "hello readme")).countP
          (fun l => ("Version:" : String).data.isPrefixOf l) = 1
      ∧ (docLines (pkgInfoContent (recordOfDescriptor ⟨some "foo",
          some "1.0", Option.none, Option.none, Option.none,
          some ["A", "B"], Option.none⟩ "0.0.0") "hello readme")).filter
          (fun l => ("Classifier:" : String).data.isPrefixOf l)
        = ["A", "B"].map (fun c => ("Classifier: " ++ c).data) :=
  c6_amended_line_counts ⟨some "foo", some "1.0", Option.none, Option.none,
      Option.none, some ["A", "B"], Option.none⟩ "0.0.0" "hello readme"
    (by decide) (by decide) (by decide) (by decide) (by decide) (by decide)
    (by decide) (by decide) (by decide)
